import Mathlib

/-!
# Song playlist manager (`songmanagement.c`)

A shallow embedding of the playlist manager and proofs about it.

Modelling conventions.
* A C string is the list of its bytes before the terminating NUL, each byte a
  `Nat`; `IsCStr` says that every byte is in `1..255`.
* A pointer to a `Song` is `Option Nat`: `none` is `NULL`, `some a` is the
  address `a` of a cell of the heap. The heap is the list of the cells handed
  out by `malloc`; `free` empties a cell and addresses are never reused.
* Every operation returns `Option`: `none` stands for undefined behaviour
  (a `strcpy` past the end of a `MAX_STR` buffer, a dereference of `NULL` or of
  a freed cell) or for a loop that never ends (a cyclic chain of `next`).
  Loops run on a fuel of `heap.length + 1` steps, which a chain of live cells
  without a cycle never uses up.
* Each `printf` call is one `Msg` holding the arguments of its format.
* `int` arithmetic that can overflow wraps to 32 bits (`wrap32`). `atoi` is
  the one of glibc on a 64-bit Linux, `(int) strtol(s, NULL, 10)`: the value
  read is held to the range of a 64-bit `long` (`LONG_MIN`, `LONG_MAX`) and
  then cut to its low 32 bits. The field `count` is kept as an unbounded
  `Int`: a playlist of `2^31` songs would need more than 400 GB of heap.
  `malloc` never fails. `char` is signed (`toChar`).
* The save file is a value of its own (`SaveFile`), passed to `savePlaylist`
  and `loadPlaylist`; the standard input is the list of the bytes not yet read.
* The local variables of `loadPlaylist` and of `main` are not initialised in
  the source: what they hold on entry is an argument (`garbage`, `loc`).
* `strtok` keeps its position from one call to the next as glibc does, also
  after a call that found no token.
-/

namespace SongManagement

/-! ## Data model -/

/-- Size of the text buffers, `#define MAX_STR 100`. -/
def MAX_STR : Nat := 100

/-- One heap cell, `struct Song`. -/
structure Song where
  title : List Nat
  artist : List Nat
  duration : Int
  next : Option Nat
deriving DecidableEq, Repr

/-- The playlist record, `struct Playlist`. -/
structure Playlist where
  name : List Nat
  head : Option Nat
  tail : Option Nat
  count : Int
deriving DecidableEq, Repr

/-- The payload of a song: what a listing shows of it. -/
structure SongData where
  title : List Nat
  artist : List Nat
  duration : Int
deriving DecidableEq, Repr

/-- The payload of a heap cell. -/
def Song.data (s : Song) : SongData := ⟨s.title, s.artist, s.duration⟩

/-- One call of `printf`, with the arguments of its format string. -/
inductive Msg where
  /-- `" [Success] Added: '%s' by %s\n"` -/
  | added (title artist : List Nat)
  /-- `" [Error] Playlist is empty!\n"` -/
  | errEmpty
  /-- `" [Error] Song not found: %s\n"` -/
  | errNotFound (title : List Nat)
  /-- `" [Success] Removed song: %s\n"` -/
  | removed (title : List Nat)
  /-- `"Playlist is empty.\n"` -/
  | searchEmpty
  /-- `"\n--- Search Results for '%s' ---\n"` -/
  | searchHeader (keyword : List Nat)
  /-- `" > %s by %s (%dm %ds)\n"` -/
  | searchHit (title artist : List Nat) (minutes seconds : Int)
  /-- `"No matches found.\n"` -/
  | noMatches
  /-- `"\n--- Playlist: %s (Empty) ---\n"` -/
  | displayEmpty (name : List Nat)
  /-- `"\n--- %s (%d Songs) ---\n"` -/
  | displayHeader (name : List Nat) (count : Int)
  /-- `"%-30s %-30s %-10s\n"` with the three column names -/
  | columns
  /-- The line of dashes. -/
  | rule
  /-- `"%-30s %-30s %d:%02d\n"` -/
  | row (title artist : List Nat) (minutes seconds : Int)
  /-- `"Total Playtime: %d min %d sec\n"` -/
  | total (minutes seconds : Int)
  /-- `"Error saving playlist.\n"` -/
  | saveError
  /-- `" [System] Playlist saved to '%s'.\n"` -/
  | saved
  /-- `" [System] No saved playlist found. Starting fresh.\n"` -/
  | noSavedPlaylist
  /-- The call of `clearScreen` -/
  | cleared
  /-- `" [System] Loaded %d songs from file.\n"` -/
  | loaded (count : Int)
  /-- `"Invalid duration.\n"` -/
  | invalidDuration
  /-- `"Enter Title: "` -/
  | askTitle
  /-- `"Enter Artist: "` -/
  | askArtist
  /-- `"Enter Duration (seconds): "` -/
  | askDuration
deriving DecidableEq, Repr

/-- The heap of `Song` cells: address `a` is position `a`; `none` is a freed cell. -/
abbrev Heap := List (Option Song)

/-- The state of the program: heap, the playlist record, and what was printed. -/
structure State where
  heap : Heap
  pl : Playlist
  out : List Msg
deriving DecidableEq, Repr

/-- Read the cell at an address; `none` when the address is not a live cell. -/
def deref (heap : Heap) (a : Nat) : Option Song := (heap.get? a).join

/-- Release a cell, `free`. -/
def free (heap : Heap) (a : Nat) : Heap := heap.set a none

/-! ## Strings -/

/-- A well-formed C string: no NUL inside, every element a byte. -/
def IsCStr (s : List Nat) : Prop := ∀ c ∈ s, 0 < c ∧ c < 256

instance (s : List Nat) : Decidable (IsCStr s) := by
  unfold IsCStr; infer_instance

/-- The bytes of a text, for examples. -/
def cstr (s : String) : List Nat := s.toList.map Char.toNat

/-- `tolower` in the C locale, on an `unsigned char` value. -/
def tolower (c : Nat) : Nat := if 65 ≤ c ∧ c ≤ 90 then c + 32 else c

/-- Conversion of an `int` to `char` (a signed 8-bit `char`). -/
def toChar (n : Nat) : Int := if n % 256 < 128 then (n % 256 : Nat) else ((n % 256 : Nat) : Int) - 256

/-- `strCaseCmpr`: compare two strings byte by byte after `tolower`; past the end of a
string the byte read is the terminating NUL. -/
def strCaseCmpr : List Nat → List Nat → Int
  | c1 :: s1, c2 :: s2 =>
    if toChar (tolower c1) ≠ toChar (tolower c2) then toChar (tolower c1) - toChar (tolower c2)
    else strCaseCmpr s1 s2
  | s1, s2 => (tolower (s1.headD 0) : Int) - (tolower (s2.headD 0) : Int)

/-- Equality after ASCII case folding. -/
def FoldEq (s t : List Nat) : Prop := s.map tolower = t.map tolower

instance (s t : List Nat) : Decidable (FoldEq s t) := by
  unfold FoldEq; infer_instance

/-! ## Core functions -/

/-- `initPlaylist`: copy the name, null the two ends, zero the count. -/
def initPlaylist (st : State) (name : List Nat) : Option State :=
  if name.length < MAX_STR then
    some { st with pl := { name := name, head := none, tail := none, count := 0 } }
  else none

/-- `createSong`: a fresh cell holding copies of the fields, `next` null.
Returns the new heap and the address of the cell. -/
def createSong (heap : Heap) (title artist : List Nat) (duration : Int) : Option (Heap × Nat) :=
  if title.length < MAX_STR ∧ artist.length < MAX_STR then
    some (heap ++ [some { title := title, artist := artist, duration := duration, next := none }],
      heap.length)
  else none

/-- `addSong`: link a new cell after the tail. -/
def addSong (st : State) (title artist : List Nat) (duration : Int) : Option State :=
  match createSong st.heap title artist duration with
  | none => none
  | some (heap, newSong) =>
    let linked : Option (Heap × Playlist) :=
      match st.pl.head with
      | none => some (heap, { st.pl with head := some newSong, tail := some newSong })
      | some _ =>
        match st.pl.tail with
        | none => none
        | some t =>
          match deref heap t with
          | none => none
          | some ts =>
            some (heap.set t (some { ts with next := some newSong }),
              { st.pl with tail := some newSong })
    match linked with
    | none => none
    | some (heap1, pl1) =>
      some { heap := heap1, pl := { pl1 with count := pl1.count + 1 },
             out := st.out ++ [Msg.added title artist] }

/-- The search loop of `removeSong`: returns the final `(temp, prev)`. -/
def removeLoop (heap : Heap) (title : List Nat) :
    Nat → Option Nat → Option Nat → Option (Option Nat × Option Nat)
  | 0, _, _ => none
  | _ + 1, none, prev => some (none, prev)
  | fuel + 1, some t, prev =>
    match deref heap t with
    | none => none
    | some s =>
      if strCaseCmpr s.title title ≠ 0 then removeLoop heap title fuel s.next (some t)
      else some (some t, prev)

/-- `removeSong`: unlink and free the first cell whose title compares equal. -/
def removeSong (st : State) (title : List Nat) : Option State :=
  match st.pl.head with
  | none => some { st with out := st.out ++ [Msg.errEmpty] }
  | some _ =>
    match removeLoop st.heap title (st.heap.length + 1) st.pl.head none with
    | none => none
    | some (none, _) => some { st with out := st.out ++ [Msg.errNotFound title] }
    | some (some t, prev) =>
      match deref st.heap t with
      | none => none
      | some ts =>
        let unlinked : Option (Heap × Playlist) :=
          match prev with
          | none =>
            some (st.heap,
              if ts.next = none then { st.pl with head := ts.next, tail := none }
              else { st.pl with head := ts.next })
          | some p =>
            match deref st.heap p with
            | none => none
            | some ps =>
              some (st.heap.set p (some { ps with next := ts.next }),
                if ts.next = none then { st.pl with tail := some p } else st.pl)
        match unlinked with
        | none => none
        | some (heap1, pl1) =>
          some { heap := free heap1 t, pl := { pl1 with count := pl1.count - 1 },
                 out := st.out ++ [Msg.removed title] }

/-! ## Library functions used by the program -/

/-- Two's-complement wrap of an integer to the range of a 32-bit `int`. -/
def wrap32 (x : Int) : Int := (x + 2 ^ 31) % 2 ^ 32 - 2 ^ 31

/-- The range of a 32-bit `int`. -/
def IsInt32 (x : Int) : Prop := -(2 ^ 31) ≤ x ∧ x < 2 ^ 31

instance (x : Int) : Decidable (IsInt32 x) := by
  unfold IsInt32; infer_instance

/-- `strstr`: the tail of `hay` at the first occurrence of `needle`, `none` for `NULL`. -/
def strstr : List Nat → List Nat → Option (List Nat)
  | [], needle => if needle = [] then some [] else none
  | c :: hay, needle =>
    if needle.isPrefixOf (c :: hay) then some (c :: hay) else strstr hay needle

/-- The decimal digits of `n`, most significant first, put in front of `acc`. -/
def fmtNatAux : Nat → Nat → List Nat → List Nat
  | 0, _, acc => acc
  | fuel + 1, n, acc =>
    if n < 10 then (48 + n) :: acc else fmtNatAux fuel (n / 10) ((48 + n % 10) :: acc)

/-- What `%d` prints for a non-negative value. -/
def fmtNat (n : Nat) : List Nat := fmtNatAux (n + 1) n []

/-- What `%d` prints: a minus sign for a negative value, then the decimal digits. -/
def fmtInt (d : Int) : List Nat := if d < 0 then 45 :: fmtNat d.natAbs else fmtNat d.natAbs

/-- `isspace` in the C locale. -/
def isspace (c : Nat) : Bool := c = 32 || (9 ≤ c && c ≤ 13)

/-- `isdigit`. -/
def isdigit (c : Nat) : Bool := 48 ≤ c && c ≤ 57

/-- The value of the leading decimal digits of a string, continuing from `acc`. -/
def atoiDigits : List Nat → Nat → Nat
  | [], acc => acc
  | c :: s, acc => if isdigit c then atoiDigits s (acc * 10 + (c - 48)) else acc

/-- Largest value of a 64-bit `long`. -/
def LONG_MAX : Int := 2 ^ 63 - 1

/-- Smallest value of a 64-bit `long`. -/
def LONG_MIN : Int := -(2 ^ 63)

/-- What `strtol` returns for the exact value read: a value out of the range of `long` is
replaced by `LONG_MIN` or `LONG_MAX`. -/
def clampLong (x : Int) : Int :=
  if x < LONG_MIN then LONG_MIN else if LONG_MAX < x then LONG_MAX else x

/-- `strtol(s, NULL, 10)`: skip white space, read an optional sign and the decimal digits
that follow; no digits give 0. -/
def strtol (s : List Nat) : Int :=
  match s.dropWhile isspace with
  | [] => 0
  | c :: r =>
    if c = 45 then clampLong (-(atoiDigits r 0 : Int))
    else if c = 43 then clampLong (atoiDigits r 0)
    else clampLong (atoiDigits (c :: r) 0)

/-- `atoi`, which is `(int) strtol(s, NULL, 10)`: the `long` is cut to its low 32 bits, so
a value from `2^63` on gives -1 and a value of `-2^63` or below gives 0. -/
def atoi (s : List Nat) : Int := wrap32 (strtol s)

/-- `fgets` with room for `n` bytes before the NUL: the bytes read, up to and including
the first newline, and the rest of the stream. No byte read stands for `NULL`. -/
def fgets : Nat → List Nat → List Nat × List Nat
  | 0, rest => ([], rest)
  | _ + 1, [] => ([], [])
  | n + 1, c :: rest =>
    if c = 10 then ([c], rest) else ((fgets n rest).1.cons c, (fgets n rest).2)

/-- The C string held by a buffer: its bytes before the first NUL. -/
def ofBuffer (buf : List Nat) : List Nat := buf.takeWhile (fun c => c ≠ 0)

/-- The statement `line[strcspn(line, "\n")] = 0`: cut the string at its first newline. -/
def chomp (line : List Nat) : List Nat := line.takeWhile (fun c => c ≠ 10)

/-- One call of `strtok(_, "|")` on the string at the current position: skip the leading
delimiters; with nothing left there is no token; else the token runs to the next delimiter,
and the saved position is just after that delimiter (or at the end of the string). -/
def strtok (s : List Nat) : Option (List Nat) × List Nat :=
  match s.dropWhile (fun c => c = 124) with
  | [] => (none, [])
  | c :: r =>
    (some ((c :: r).takeWhile (fun c => c ≠ 124)), ((c :: r).dropWhile (fun c => c ≠ 124)).drop 1)

/-- `strcpy` into a buffer of `MAX_STR` bytes: undefined when the string and its NUL do
not fit. -/
def strcpy (src : List Nat) : Option (List Nat) :=
  if src.length < MAX_STR then some src else none

/-! ## Reading functions -/

/-- The loop of `searchSong`: returns `found` and the output. -/
def searchLoop (heap : Heap) (keyword : List Nat) :
    Nat → Option Nat → Bool → List Msg → Option (Bool × List Msg)
  | 0, _, _, _ => none
  | _ + 1, none, found, out => some (found, out)
  | fuel + 1, some t, found, out =>
    match deref heap t with
    | none => none
    | some s =>
      if (strstr s.title keyword).isSome || (strstr s.artist keyword).isSome then
        searchLoop heap keyword fuel s.next true
          (out ++ [Msg.searchHit s.title s.artist (s.duration.tdiv 60) (s.duration.tmod 60)])
      else searchLoop heap keyword fuel s.next found out

/-- `searchSong`: print every song whose title or artist contains the keyword. -/
def searchSong (st : State) (keyword : List Nat) : Option State :=
  match st.pl.head with
  | none => some { st with out := st.out ++ [Msg.searchEmpty] }
  | some _ =>
    match searchLoop st.heap keyword (st.heap.length + 1) st.pl.head false
        (st.out ++ [Msg.searchHeader keyword]) with
    | none => none
    | some (found, out) =>
      some { st with out := if found then out else out ++ [Msg.noMatches] }

/-- The loop of `displayPlaylist`: returns `totalSeconds` and the output. -/
def displayLoop (heap : Heap) : Nat → Option Nat → Int → List Msg → Option (Int × List Msg)
  | 0, _, _, _ => none
  | _ + 1, none, totalSeconds, out => some (totalSeconds, out)
  | fuel + 1, some t, totalSeconds, out =>
    match deref heap t with
    | none => none
    | some s =>
      displayLoop heap fuel s.next (wrap32 (totalSeconds + s.duration))
        (out ++ [Msg.row s.title s.artist (s.duration.tdiv 60) (s.duration.tmod 60)])

/-- `displayPlaylist`: print the table of songs and the total play time. -/
def displayPlaylist (st : State) : Option State :=
  match st.pl.head with
  | none => some { st with out := st.out ++ [Msg.displayEmpty st.pl.name] }
  | some _ =>
    match displayLoop st.heap (st.heap.length + 1) st.pl.head 0
        (st.out ++ [Msg.displayHeader st.pl.name st.pl.count, Msg.columns, Msg.rule]) with
    | none => none
    | some (totalSeconds, out) =>
      some { st with
        out := out ++ [Msg.rule, Msg.total (totalSeconds.tdiv 60) (totalSeconds.tmod 60)] }

/-! ## File functions -/

/-- The file `SAVE_FILE` as the program sees it: its bytes (`none` when there is no such
file) and whether it can be opened for reading and for writing. -/
structure SaveFile where
  content : Option (List Nat)
  readable : Bool
  writable : Bool
deriving DecidableEq, Repr

/-- The line `fprintf(fp, "%s|%s|%d\n", ...)` writes for one song. -/
def saveLine (s : Song) : List Nat :=
  s.title ++ [124] ++ s.artist ++ [124] ++ fmtInt s.duration ++ [10]

/-- The loop of `savePlaylist`: returns what was written to the stream. -/
def saveLoop (heap : Heap) : Nat → Option Nat → List Nat → Option (List Nat)
  | 0, _, _ => none
  | _ + 1, none, written => some written
  | fuel + 1, some t, written =>
    match deref heap t with
    | none => none
    | some s => saveLoop heap fuel s.next (written ++ saveLine s)

/-- `savePlaylist`: open the file for writing, which empties it, and write one line per
song. -/
def savePlaylist (st : State) (fs : SaveFile) : Option (State × SaveFile) :=
  if fs.writable then
    match saveLoop st.heap (st.heap.length + 1) st.pl.head [] with
    | none => none
    | some written =>
      some ({ st with out := st.out ++ [Msg.saved] }, { fs with content := some written })
  else some ({ st with out := st.out ++ [Msg.saveError] }, fs)

/-- The local variables `title`, `artist`, `duration` of `loadPlaylist`. They are not
initialised, and they keep their values from one line to the next. -/
structure Locals where
  title : List Nat
  artist : List Nat
  duration : Int
deriving DecidableEq, Repr

/-- The three `strtok` calls on one line, each token copied to its variable when there
is one. -/
def parseLine (line : List Nat) (loc : Locals) : Option Locals :=
  let t1 := strtok line
  let title : Option (List Nat) :=
    match t1.1 with
    | some token => strcpy token
    | none => some loc.title
  let t2 := strtok t1.2
  let artist : Option (List Nat) :=
    match t2.1 with
    | some token => strcpy token
    | none => some loc.artist
  let t3 := strtok t2.2
  let duration : Int :=
    match t3.1 with
    | some token => atoi token
    | none => loc.duration
  match title, artist with
  | some t, some a => some { title := t, artist := a, duration := duration }
  | _, _ => none

/-- The loop of `loadPlaylist` on the unread part of the file. -/
def loadLoop : Nat → List Nat → Locals → State → Option State
  | 0, _, _, _ => none
  | fuel + 1, rest, loc, st =>
    match fgets 255 rest with
    | ([], _) => some st
    | (c :: buf, rest1) =>
      match parseLine (chomp (ofBuffer (c :: buf))) loc with
      | none => none
      | some loc1 =>
        match addSong st loc1.title loc1.artist loc1.duration with
        | none => none
        | some st1 => loadLoop fuel rest1 loc1 st1

/-- `loadPlaylist`: append one song per line of the file, when there is a file. `garbage`
is what the local variables hold on entry. -/
def loadPlaylist (st : State) (fs : SaveFile) (garbage : Locals) : Option State :=
  match fs.content with
  | none => some { st with out := st.out ++ [Msg.noSavedPlaylist] }
  | some bytes =>
    if fs.readable then
      match loadLoop (bytes.length + 1) bytes garbage st with
      | none => none
      | some st1 => some { st1 with out := st1.out ++ [Msg.cleared, Msg.loaded st1.pl.count] }
    else some { st with out := st.out ++ [Msg.noSavedPlaylist] }

/-- The loop of `freePlaylist`: returns the heap with the cells released. -/
def freeLoop : Nat → Heap → Option Nat → Option Heap
  | 0, _, _ => none
  | _ + 1, heap, none => some heap
  | fuel + 1, heap, some t =>
    match deref heap t with
    | none => none
    | some s => freeLoop fuel (free heap t) s.next

/-- `freePlaylist`: release every cell and reset the record. -/
def freePlaylist (st : State) : Option State :=
  match freeLoop (st.heap.length + 1) st.heap st.pl.head with
  | none => none
  | some heap =>
    some { st with heap := heap, pl := { st.pl with head := none, tail := none, count := 0 } }

/-! ## The menu -/

/-- `getLine(buffer, size)` on the unread part of the standard input: `fgets`, then the
newline at the end of the string, if there is one, is cut. When `fgets` returns `NULL` the
buffer keeps what it held. Returns the string in the buffer and the rest of the input. -/
def getLine (buffer : List Nat) (size : Nat) (stdin : List Nat) : List Nat × List Nat :=
  match fgets (size - 1) stdin with
  | ([], rest) => (buffer, rest)
  | (c :: buf, rest) =>
    if (ofBuffer (c :: buf)).getLast? = some 10 then ((ofBuffer (c :: buf)).dropLast, rest)
    else (ofBuffer (c :: buf), rest)

/-- The local variables `buffer`, `title`, `artist`, `duration` of `main`. -/
structure MainLocals where
  buffer : List Nat
  title : List Nat
  artist : List Nat
  duration : Int
deriving DecidableEq, Repr

/-- The branch `case 1` of the menu in `main`: read title, artist and duration, and call
`addSong` when the duration is positive. Returns the state, the local variables and the
rest of the input. -/
def mainAddSong (st : State) (loc : MainLocals) (stdin : List Nat) :
    Option (State × MainLocals × List Nat) :=
  let t := getLine loc.title MAX_STR stdin
  let a := getLine loc.artist MAX_STR t.2
  let b := getLine loc.buffer MAX_STR a.2
  let duration := atoi b.1
  let loc1 : MainLocals := { buffer := b.1, title := t.1, artist := a.1, duration := duration }
  let st0 : State := { st with out := st.out ++ [Msg.askTitle, Msg.askArtist, Msg.askDuration] }
  if duration > 0 then
    match addSong st0 t.1 a.1 duration with
    | none => none
    | some st1 => some (st1, loc1, b.2)
  else some ({ st0 with out := st0.out ++ [Msg.invalidDuration] }, loc1, b.2)

/-! ## Observation -/

/-- Follow `next` from `p` to `NULL`, collecting the addresses and cells met. -/
def walk (heap : Heap) : Nat → Option Nat → Option (List (Nat × Song))
  | 0, _ => none
  | _ + 1, none => some []
  | fuel + 1, some a =>
    match deref heap a with
    | none => none
    | some s => (walk heap fuel s.next).map (fun l => (a, s) :: l)

/-- The cells of the playlist, from `head`, with their addresses. -/
def cells (st : State) : Option (List (Nat × Song)) :=
  walk st.heap (st.heap.length + 1) st.pl.head

/-- The sequence of songs of the playlist, from `head`. -/
def songs (st : State) : Option (List SongData) :=
  (cells st).map (fun l => l.map (fun c => c.2.data))

/-! ## Specification vocabulary -/

/-- The cells `l` (with their addresses) are chained through `next` from `p` and the
`next` of the last one is `q`. -/
def Seg (heap : Heap) : Option Nat → List (Nat × Song) → Option Nat → Prop
  | p, [], q => p = q
  | p, c :: l, q => p = some c.1 ∧ deref heap c.1 = some c.2 ∧ Seg heap c.2.next l q

/-- The playlist record describes the chain `l`: `head` starts it, `tail` is the address
of its last cell (null when there is none) and `count` is its length. -/
def Holds (st : State) (l : List (Nat × Song)) : Prop :=
  Seg st.heap st.pl.head l none ∧ st.pl.tail = (l.getLast?).map (fun c => c.1) ∧
    st.pl.count = l.length

/-- A run of `addSong` calls, one per entry of the list, in order. -/
def addAll : State → List SongData → Option State
  | st, [] => some st
  | st, x :: xs =>
    match addSong st x.title x.artist x.duration with
    | none => none
    | some st1 => addAll st1 xs

/-- The states the program can be in: `initPlaylist` on any state, then any calls of the
functions on the playlist that return. -/
inductive Reachable : State → Prop where
  | init (st0 st : State) (name : List Nat) :
      initPlaylist st0 name = some st → Reachable st
  | add (st st1 : State) (title artist : List Nat) (duration : Int) :
      Reachable st → addSong st title artist duration = some st1 → Reachable st1
  | remove (st st1 : State) (title : List Nat) :
      Reachable st → removeSong st title = some st1 → Reachable st1
  | search (st st1 : State) (keyword : List Nat) :
      Reachable st → searchSong st keyword = some st1 → Reachable st1
  | display (st st1 : State) :
      Reachable st → displayPlaylist st = some st1 → Reachable st1
  | save (st st1 : State) (fs fs1 : SaveFile) :
      Reachable st → savePlaylist st fs = some (st1, fs1) → Reachable st1
  | load (st st1 : State) (fs : SaveFile) (garbage : Locals) :
      Reachable st → loadPlaylist st fs garbage = some st1 → Reachable st1
  | release (st st1 : State) :
      Reachable st → freePlaylist st = some st1 → Reachable st1

/-- A song as the spec wants it for a round trip: title and artist are non-empty C strings
of at most 99 bytes without `|` and newline, and the duration is an `int`. -/
def WellFormed (x : SongData) : Prop :=
  x.title ≠ [] ∧ x.artist ≠ [] ∧ x.title.length ≤ 99 ∧ x.artist.length ≤ 99 ∧
    IsCStr x.title ∧ IsCStr x.artist ∧
    124 ∉ x.title ∧ 10 ∉ x.title ∧ 124 ∉ x.artist ∧ 10 ∉ x.artist ∧ IsInt32 x.duration

instance (x : SongData) : Decidable (WellFormed x) := by
  unfold WellFormed; infer_instance

/-- A state with nothing allocated and nothing printed. -/
def emptyState : State :=
  { heap := [], pl := { name := [], head := none, tail := none, count := 0 }, out := [] }

/-! ## Example playlists -/

/-- The song "Song A" by "Artist X", 200 seconds. -/
def songA : SongData := ⟨cstr "Song A", cstr "Artist X", 200⟩

/-- The song "Song B" by "Artist Y", 125 seconds. -/
def songB : SongData := ⟨cstr "Song B", cstr "Artist Y", 125⟩

/-- The state after `initPlaylist` with the name used by `main`. -/
def demoInit : State := (initPlaylist emptyState (cstr "My Favorites")).getD emptyState

/-- The state after adding `songA` to `demoInit`. -/
def demoA : State := (addSong demoInit songA.title songA.artist songA.duration).getD emptyState

/-- The state after adding `songB` to `demoA`. -/
def demoAB : State := (addSong demoA songB.title songB.artist songB.duration).getD emptyState

/-- Two songs: one titled "Love Story", one by the artist "Lovers' Lane". -/
def loveSongs : List SongData :=
  [⟨cstr "Love Story", cstr "Taylor Swift", 235⟩, ⟨cstr "Night Drive", cstr "Lovers' Lane", 180⟩]

/-- The playlist `demoInit` with the two songs of `loveSongs` added. -/
def demoLove : State := (addAll demoInit loveSongs).getD emptyState

/-- A save file that does not exist yet and can be created. -/
def noFile : SaveFile := { content := none, readable := true, writable := true }

/-- A save file with some earlier content. -/
def oldFile : SaveFile := { content := some (cstr "old|data|1\n"), readable := true, writable := true }

/-- The line `searchSong` prints for a song that matches. -/
def hitMsg (x : SongData) : Msg :=
  Msg.searchHit x.title x.artist (x.duration.tdiv 60) (x.duration.tmod 60)

/-- A text that can stand as a field of a saved line: a non-empty C string of at most 99
bytes without `|` and newline. -/
def IsField (s : List Nat) : Prop :=
  s ≠ [] ∧ s.length ≤ 99 ∧ IsCStr s ∧ 124 ∉ s ∧ 10 ∉ s

instance (s : List Nat) : Decidable (IsField s) := by
  unfold IsField; infer_instance

/-- The saved form of a list of songs: one line `title|artist|duration` per song. -/
def savedLines (xs : List SongData) : List Nat :=
  (xs.map (fun x => x.title ++ [124] ++ x.artist ++ [124] ++ fmtInt x.duration ++ [10])).flatten

/-- A line typed at a prompt of the menu that `getLine` takes whole: no NUL byte, and with
its newline it fits the `MAX_STR - 1` bytes `fgets` reads. -/
def IsInputLine (s : List Nat) : Prop := 10 ∉ s ∧ 0 ∉ s ∧ s.length + 1 < MAX_STR

instance (s : List Nat) : Decidable (IsInputLine s) := by
  unfold IsInputLine; infer_instance

/-- The local variables of `main` before anything was read. -/
def mainLocals0 : MainLocals := { buffer := [], title := [], artist := [], duration := 0 }

/-- The state after the menu's Add Song step on `demoInit` when the user enters an empty
title, the artist "X" and the duration "5". -/
def demoEmptyTitle : State :=
  ((mainAddSong demoInit mainLocals0 (cstr "\nX\n5\n")).map (fun r => r.1)).getD emptyState

/-- The state after `loadPlaylist` on `demoInit` of the one-line file "Z|W", a line with
two fields, when the local variable `duration` happens to hold 7. -/
def demoShortFirst : State :=
  (loadPlaylist demoInit ⟨some (cstr "Z|W\n"), true, true⟩ ⟨[], [], 7⟩).getD emptyState

/-- A save file with one line of 100 letters `a`. -/
def longLineFile : SaveFile :=
  { content := some (List.replicate 100 97 ++ [10]), readable := true, writable := true }

/-! ## The heap -/

theorem deref_lt {heap : Heap} {a : Nat} {s : Song} (h : deref heap a = some s) :
    a < heap.length := by
  unfold deref at h
  by_contra hlt
  rw [List.get?_eq_none.mpr (by omega)] at h
  simp at h

theorem deref_append {heap : Heap} {a : Nat} {s : Song} (x : Option Song)
    (h : deref heap a = some s) : deref (heap ++ [x]) a = some s := by
  have hlt := deref_lt h
  unfold deref at h ⊢
  rw [List.get?_eq_getElem?, List.getElem?_append_left hlt, ← List.get?_eq_getElem?]
  exact h

theorem deref_append_new (heap : Heap) (s : Song) :
    deref (heap ++ [some s]) heap.length = some s := by
  unfold deref
  simp

theorem deref_set_ne (heap : Heap) {a b : Nat} (v : Option Song) (hne : a ≠ b) :
    deref (heap.set a v) b = deref heap b := by
  unfold deref
  simp [List.getElem?_set_ne hne]

theorem deref_set_eq {heap : Heap} {a : Nat} (s : Song) (hlt : a < heap.length) :
    deref (heap.set a (some s)) a = some s := by
  unfold deref
  simp [hlt]

/-! ## Chains of cells -/

theorem seg_nil {heap : Heap} {p q : Option Nat} : Seg heap p [] q ↔ p = q := Iff.rfl

theorem seg_cons {heap : Heap} {c : Nat × Song} {l : List (Nat × Song)} {p q : Option Nat} :
    Seg heap p (c :: l) q ↔ p = some c.1 ∧ deref heap c.1 = some c.2 ∧ Seg heap c.2.next l q :=
  Iff.rfl

theorem seg_append {heap : Heap} {l1 l2 : List (Nat × Song)} {p q : Option Nat} :
    Seg heap p (l1 ++ l2) q ↔ ∃ r, Seg heap p l1 r ∧ Seg heap r l2 q := by
  induction l1 generalizing p with
  | nil => simp [seg_nil]
  | cons c l1 ih =>
    simp only [List.cons_append, seg_cons, ih]
    constructor
    · rintro ⟨h1, h2, r, h3, h4⟩
      exact ⟨r, ⟨h1, h2, h3⟩, h4⟩
    · rintro ⟨r, ⟨h1, h2, h3⟩, h4⟩
      exact ⟨h1, h2, r, h3, h4⟩

theorem seg_unique {heap : Heap} {l l2 : List (Nat × Song)} {p : Option Nat}
    (h1 : Seg heap p l none) (h2 : Seg heap p l2 none) : l = l2 := by
  induction l generalizing p l2 with
  | nil =>
    cases l2 with
    | nil => rfl
    | cons c l2 =>
      simp only [seg_nil, seg_cons] at h1 h2
      rw [h1] at h2
      exact absurd h2.1 (by simp)
  | cons c l ih =>
    cases l2 with
    | nil =>
      simp only [seg_nil, seg_cons] at h1 h2
      rw [h2] at h1
      exact absurd h1.1 (by simp)
    | cons d l2 =>
      simp only [seg_nil, seg_cons] at h1 h2
      obtain ⟨ha, hs, hl⟩ := h1
      obtain ⟨hb, ht, hl2⟩ := h2
      have hab : c.1 = d.1 := by
        rw [ha] at hb
        exact Option.some.inj hb
      rw [← hab, hs] at ht
      have hcd : c.2 = d.2 := Option.some.inj ht
      rw [← hcd] at hl2
      rw [ih hl hl2]
      congr 1
      exact Prod.ext hab hcd

theorem seg_lt {heap : Heap} {l : List (Nat × Song)} {p q : Option Nat}
    (h : Seg heap p l q) : ∀ c ∈ l, c.1 < heap.length := by
  induction l generalizing p with
  | nil => simp
  | cons c l ih =>
    simp only [seg_nil, seg_cons] at h
    intro d hd
    rcases List.mem_cons.mp hd with rfl | hd
    · exact deref_lt h.2.1
    · exact ih h.2.2 d hd

theorem seg_deref {heap : Heap} {l : List (Nat × Song)} {p q : Option Nat}
    (h : Seg heap p l q) : ∀ c ∈ l, deref heap c.1 = some c.2 := by
  induction l generalizing p with
  | nil => simp
  | cons c l ih =>
    simp only [seg_nil, seg_cons] at h
    intro d hd
    rcases List.mem_cons.mp hd with rfl | hd
    · exact h.2.1
    · exact ih h.2.2 d hd

theorem seg_nodup {heap : Heap} {l : List (Nat × Song)} {p : Option Nat}
    (h : Seg heap p l none) : (l.map (fun c => c.1)).Nodup := by
  induction l generalizing p with
  | nil => simp
  | cons c l ih =>
    have h0 := h
    simp only [seg_nil, seg_cons] at h
    simp only [List.map_cons, List.nodup_cons]
    refine ⟨?_, ih h.2.2⟩
    intro hmem
    obtain ⟨d, hd, hdc⟩ := List.mem_map.mp hmem
    obtain ⟨l1, l2, hl⟩ := List.append_of_mem hd
    have h2 := h.2.2
    rw [hl, seg_append] at h2
    obtain ⟨r, _, h3⟩ := h2
    have hr : r = some c.1 := by
      simp only [seg_nil, seg_cons] at h3
      rw [h3.1, hdc]
    have hdd : d = c := by
      have := seg_deref h.2.2 d hd
      rw [hdc, h.2.1] at this
      exact Prod.ext hdc (Option.some.inj this).symm
    rw [hr, hdd, ← h.1] at h3
    have := seg_unique h0 h3
    have hlen := congrArg List.length this
    rw [hl] at hlen
    simp at hlen
    omega

theorem seg_length_le {heap : Heap} {l : List (Nat × Song)} {p : Option Nat}
    (h : Seg heap p l none) : l.length ≤ heap.length := by
  have hnd := seg_nodup h
  have hsub : (l.map (fun c => c.1)) ⊆ List.range heap.length := by
    intro a ha
    obtain ⟨c, hc, rfl⟩ := List.mem_map.mp ha
    exact List.mem_range.mpr (seg_lt h c hc)
  have := (List.subperm_of_subset hnd hsub).length_le
  simpa using this

theorem seg_set {heap : Heap} {l : List (Nat × Song)} {p q : Option Nat} (a : Nat)
    (v : Option Song) (h : Seg heap p l q) (ha : a ∉ l.map (fun c => c.1)) :
    Seg (heap.set a v) p l q := by
  induction l generalizing p with
  | nil => exact h
  | cons c l ih =>
    simp only [seg_nil, seg_cons] at h ⊢
    simp only [List.map_cons, List.mem_cons, not_or] at ha
    refine ⟨h.1, ?_, ih h.2.2 ha.2⟩
    rw [deref_set_ne heap v ha.1]
    exact h.2.1

theorem seg_grow {heap : Heap} {l : List (Nat × Song)} {p q : Option Nat} (x : Option Song)
    (h : Seg heap p l q) : Seg (heap ++ [x]) p l q := by
  induction l generalizing p with
  | nil => exact h
  | cons c l ih =>
    simp only [seg_nil, seg_cons] at h ⊢
    exact ⟨h.1, deref_append x h.2.1, ih h.2.2⟩

theorem walk_seg {heap : Heap} {fuel : Nat} {p : Option Nat} {l : List (Nat × Song)}
    (h : walk heap fuel p = some l) : Seg heap p l none := by
  induction fuel generalizing p l with
  | zero => simp [walk] at h
  | succ fuel ih =>
    cases p with
    | none =>
      simp only [walk, Option.some.injEq] at h
      subst h
      simp [seg_nil]
    | some a =>
      simp only [walk] at h
      cases hd : deref heap a with
      | none => simp [hd] at h
      | some s =>
        simp only [hd, Option.map_eq_some'] at h
        obtain ⟨l2, hl2, rfl⟩ := h
        exact ⟨rfl, hd, ih hl2⟩

theorem seg_walk {heap : Heap} {fuel : Nat} {p : Option Nat} {l : List (Nat × Song)}
    (h : Seg heap p l none) (hf : l.length < fuel) : walk heap fuel p = some l := by
  induction l generalizing p fuel with
  | nil =>
    simp only [seg_nil, seg_cons] at h
    subst h
    cases fuel with
    | zero => simp at hf
    | succ fuel => rfl
  | cons c l ih =>
    obtain ⟨hp, hd, hl⟩ := h
    subst hp
    cases fuel with
    | zero => simp at hf
    | succ fuel =>
      simp only [List.length_cons, Nat.add_lt_add_iff_right] at hf
      simp [walk, hd, ih hl hf]

theorem cells_iff {st : State} {l : List (Nat × Song)} :
    cells st = some l ↔ Seg st.heap st.pl.head l none := by
  constructor
  · exact walk_seg
  · intro h
    exact seg_walk h (Nat.lt_succ_of_le (seg_length_le h))

theorem songs_iff {st : State} {xs : List SongData} :
    songs st = some xs ↔
      ∃ l, Seg st.heap st.pl.head l none ∧ l.map (fun c => c.2.data) = xs := by
  simp only [songs, Option.map_eq_some', cells_iff]

/-! ## Case-insensitive comparison -/

theorem toChar_inj {a b : Nat} (ha : a < 256) (hb : b < 256) (h : toChar a = toChar b) :
    a = b := by
  unfold toChar at h
  rw [Nat.mod_eq_of_lt ha, Nat.mod_eq_of_lt hb] at h
  split_ifs at h <;> omega

theorem tolower_lt {c : Nat} (h : c < 256) : tolower c < 256 := by
  unfold tolower
  split_ifs <;> omega

theorem tolower_pos {c : Nat} (h : 0 < c) : 0 < tolower c := by
  unfold tolower
  split_ifs <;> omega

theorem strCaseCmpr_eq_zero_iff {s t : List Nat} (hs : IsCStr s) (ht : IsCStr t) :
    strCaseCmpr s t = 0 ↔ FoldEq s t := by
  induction s generalizing t with
  | nil =>
    cases t with
    | nil => simp [strCaseCmpr, FoldEq]
    | cons d t =>
      have hd := ht d (List.mem_cons_self d t)
      have := tolower_pos hd.1
      simp only [strCaseCmpr, List.headD_nil, List.headD_cons, FoldEq, List.map_nil,
        List.map_cons]
      constructor
      · intro h
        have h0 : tolower 0 = 0 := by decide
        rw [h0] at h
        omega
      · intro h
        exact absurd h (by simp)
  | cons c s ih =>
    have hc := hs c (List.mem_cons_self c s)
    have hs2 : IsCStr s := fun x hx => hs x (List.mem_cons_of_mem c hx)
    cases t with
    | nil =>
      have := tolower_pos hc.1
      simp only [strCaseCmpr, List.headD_nil, List.headD_cons, FoldEq, List.map_nil,
        List.map_cons]
      constructor
      · intro h
        have h0 : tolower 0 = 0 := by decide
        rw [h0] at h
        omega
      · intro h
        exact absurd h (by simp)
    | cons d t =>
      have hd := ht d (List.mem_cons_self d t)
      have ht2 : IsCStr t := fun x hx => ht x (List.mem_cons_of_mem d hx)
      simp only [strCaseCmpr, FoldEq, List.map_cons, List.cons.injEq]
      by_cases hcd : toChar (tolower c) = toChar (tolower d)
      · have hcd2 := toChar_inj (tolower_lt hc.2) (tolower_lt hd.2) hcd
        simp only [hcd, ne_eq, not_true_eq_false, if_false, hcd2, true_and]
        exact ih hs2 ht2
      · simp only [ne_eq, hcd, not_false_eq_true, if_true]
        constructor
        · intro h
          exact absurd (by omega) hcd
        · intro h
          exact absurd (by rw [h.1]) hcd

/-! ## `removeSong` -/

theorem removeLoop_miss {heap : Heap} {title : List Nat} {l : List (Nat × Song)}
    {p : Option Nat} (hseg : Seg heap p l none)
    (hmiss : ∀ c ∈ l, strCaseCmpr c.2.title title ≠ 0) :
    ∀ (fuel : Nat) (prev : Option Nat), l.length < fuel →
      ∃ q, removeLoop heap title fuel p prev = some (none, q) := by
  induction l generalizing p with
  | nil =>
    intro fuel prev hf
    rw [seg_nil] at hseg
    subst hseg
    cases fuel with
    | zero => simp at hf
    | succ fuel => exact ⟨prev, rfl⟩
  | cons c l ih =>
    intro fuel prev hf
    obtain ⟨hp, hd, hl⟩ := seg_cons.mp hseg
    subst hp
    cases fuel with
    | zero => simp at hf
    | succ fuel =>
      simp only [List.length_cons, Nat.add_lt_add_iff_right] at hf
      have hc := hmiss c (List.mem_cons_self c l)
      simp only [removeLoop, hd, ne_eq, hc, not_false_eq_true, if_true]
      exact ih hl (fun d hd => hmiss d (List.mem_cons_of_mem c hd)) fuel (some c.1) hf

theorem removeLoop_hit {heap : Heap} {title : List Nat} {l1 : List (Nat × Song)}
    {c : Nat × Song} {p : Option Nat} (hseg : Seg heap p l1 (some c.1))
    (hc : deref heap c.1 = some c.2)
    (hmiss : ∀ d ∈ l1, strCaseCmpr d.2.title title ≠ 0)
    (hhit : strCaseCmpr c.2.title title = 0) :
    ∀ (fuel : Nat) (prev : Option Nat), l1.length < fuel →
      removeLoop heap title fuel p prev =
        some (some c.1, ((l1.getLast?).map (fun d => d.1)).or prev) := by
  induction l1 generalizing p with
  | nil =>
    intro fuel prev hf
    rw [seg_nil] at hseg
    subst hseg
    cases fuel with
    | zero => simp at hf
    | succ fuel => simp [removeLoop, hc, hhit]
  | cons d l1 ih =>
    intro fuel prev hf
    obtain ⟨hp, hd, hl⟩ := seg_cons.mp hseg
    subst hp
    cases fuel with
    | zero => simp at hf
    | succ fuel =>
      simp only [List.length_cons, Nat.add_lt_add_iff_right] at hf
      have hdm := hmiss d (List.mem_cons_self d l1)
      simp only [removeLoop, hd, ne_eq, hdm, not_false_eq_true, if_true]
      rw [ih hl (fun e he => hmiss e (List.mem_cons_of_mem d he)) fuel (some d.1) hf]
      cases l1 with
      | nil => simp
      | cons e l1 =>
        rw [List.getLast?_cons_cons, List.getLast?_eq_getLast _ (List.cons_ne_nil e l1)]
        rfl

theorem removeSong_chain {st : State} {title : List Nat} {l1 l2 : List (Nat × Song)}
    {c : Nat × Song} (hseg : Seg st.heap st.pl.head (l1 ++ c :: l2) none)
    (hmiss : ∀ d ∈ l1, strCaseCmpr d.2.title title ≠ 0)
    (hhit : strCaseCmpr c.2.title title = 0) :
    ∃ st1 k1, removeSong st title = some st1 ∧
      Seg st1.heap st1.pl.head (k1 ++ l2) none ∧
      k1.map (fun d => d.2.data) = l1.map (fun d => d.2.data) ∧
      st1.pl.count = st.pl.count - 1 ∧ st1.out = st.out ++ [Msg.removed title] ∧
      st1.pl.name = st.pl.name ∧
      (st1.pl.tail = if l2 = [] then (k1.getLast?).map (fun d => d.1) else st.pl.tail) ∧
      k1.map (fun d => d.1) = l1.map (fun d => d.1) := by
  have hnd := seg_nodup hseg
  have hlen := seg_length_le hseg
  obtain ⟨r, h1, h2⟩ := seg_append.mp hseg
  obtain ⟨hr, hcd, hl2⟩ := seg_cons.mp h2
  subst hr
  have hf : l1.length < st.heap.length + 1 := by
    simp only [List.length_append, List.length_cons] at hlen
    omega
  have hloop := removeLoop_hit h1 hcd hmiss hhit (st.heap.length + 1) none hf
  simp only [List.map_append, List.map_cons] at hnd
  have hc2 : c.1 ∉ l2.map (fun d => d.1) := by
    have := (List.nodup_append.mp hnd).2.1
    exact (List.nodup_cons.mp this).1
  rcases List.eq_nil_or_concat l1 with rfl | ⟨k, d, hk⟩
  · rw [seg_nil] at h1
    rw [h1] at hloop
    simp only [removeSong, h1, hloop, hcd]
    refine ⟨_, [], rfl, ?_, rfl, ?_⟩
    · by_cases hn : c.2.next = none <;> simp only [hn, if_true, if_false, List.nil_append]
      · exact seg_set c.1 none (hn ▸ hl2) hc2
      · exact seg_set c.1 none hl2 hc2
    · by_cases hn : c.2.next = none
      · simp only [hn, if_true] at hl2 ⊢
        cases l2 with
        | nil => simp
        | cons e l2 => exact absurd (seg_cons.mp hl2).1 (by simp)
      · simp only [hn, if_false]
        cases l2 with
        | nil => exact absurd (seg_nil.mp hl2) hn
        | cons e l2 => simp
  · rw [List.concat_eq_append] at hk
    subst hk
    obtain ⟨r, hk, hd⟩ := seg_append.mp h1
    obtain ⟨hr, hdd, hdn⟩ := seg_cons.mp hd
    rw [seg_nil] at hdn
    subst hr
    have hhead : ∃ a, st.pl.head = some a := by
      cases k with
      | nil => exact ⟨d.1, seg_nil.mp hk⟩
      | cons e k => exact ⟨e.1, (seg_cons.mp hk).1⟩
    obtain ⟨a, hhead⟩ := hhead
    have hprev : ((k ++ [d]).getLast?.map (fun e => e.1)).or none = some d.1 := by
      simp
    rw [hprev] at hloop
    have hdk : d.1 ∉ k.map (fun e => e.1) := by
      have := (List.nodup_append.mp hnd).1
      simp only [List.map_append, List.map_cons, List.map_nil] at this
      have h3 := (List.nodup_append.mp this).2.2
      intro hmem
      exact h3 hmem (List.mem_singleton_self _) 
    have hdisj := (List.nodup_append.mp hnd).2.2
    have hdc : d.1 ≠ c.1 := by
      intro heq
      exact hdisj (a := d.1) (by simp) (by simp [heq])
    have hd2 : d.1 ∉ l2.map (fun e => e.1) := by
      intro hmem
      exact hdisj (a := d.1) (by simp) (List.mem_cons_of_mem _ hmem)
    have hck : c.1 ∉ k.map (fun e => e.1) := by
      intro hmem
      exact hdisj (a := c.1) (by simp [hmem]) (List.mem_cons_self _ _)
    rw [hhead] at hloop
    simp only [removeSong, hhead, hloop, hcd, hdd]
    refine ⟨_, k ++ [(d.1, { d.2 with next := c.2.next })], rfl, ?_, ?_, ?_⟩
    · have hpl : (if c.2.next = none then
          ({ name := st.pl.name, head := some a, tail := some d.1, count := st.pl.count } : Playlist)
          else st.pl).head = st.pl.head := by
        split_ifs
        · exact hhead.symm
        · rfl
      simp only [hpl, List.append_assoc, List.singleton_append]
      rw [seg_append]
      refine ⟨some d.1, ?_, ?_⟩
      · exact seg_set c.1 none (seg_set d.1 _ hk hdk) hck
      · rw [seg_cons]
        refine ⟨rfl, ?_, ?_⟩
        · show deref (free (st.heap.set d.1 _) c.1) d.1 = _
          unfold free
          rw [deref_set_ne _ _ hdc.symm, deref_set_eq _ (deref_lt hdd)]
        · exact seg_set c.1 none (seg_set d.1 _ hl2 hd2) hc2
    · simp [Song.data]
    · refine ⟨?_, rfl, ?_, ?_, by simp⟩
      · show (if c.2.next = none then _ else _ : Playlist).count - 1 = _
        split_ifs <;> rfl
      · show (if c.2.next = none then _ else _ : Playlist).name = _
        split_ifs <;> rfl
      · show (if c.2.next = none then _ else _ : Playlist).tail = _
        by_cases hn : c.2.next = none
        · rw [hn] at hl2
          cases l2 with
          | nil => simp [hn]
          | cons e l2 => exact absurd (seg_cons.mp hl2).1 (by simp)
        · cases l2 with
          | nil => exact absurd (seg_nil.mp hl2) hn
          | cons e l2 => simp [hn]

theorem first_match_split {α : Type} (P : α → Prop) [DecidablePred P] (l : List α)
    (h : ∃ x ∈ l, P x) :
    ∃ l1 x l2, l = l1 ++ x :: l2 ∧ (∀ y ∈ l1, ¬ P y) ∧ P x := by
  induction l with
  | nil =>
    obtain ⟨x, hx, _⟩ := h
    simp at hx
  | cons a l ih =>
    by_cases ha : P a
    · exact ⟨[], a, l, rfl, by simp, ha⟩
    · obtain ⟨x, hx, hpx⟩ := h
      rcases List.mem_cons.mp hx with rfl | hx
      · exact absurd hpx ha
      · obtain ⟨l1, y, l2, rfl, hl1, hy⟩ := ih ⟨x, hx, hpx⟩
        refine ⟨a :: l1, y, l2, rfl, ?_, hy⟩
        intro z hz
        rcases List.mem_cons.mp hz with rfl | hz
        · exact ha
        · exact hl1 z hz

theorem songs_of_seg {st : State} {l : List (Nat × Song)}
    (h : Seg st.heap st.pl.head l none) : songs st = some (l.map (fun c => c.2.data)) :=
  songs_iff.mpr ⟨l, h, rfl⟩

/-- C1: when some song's title equals `title` after ASCII case folding, `removeSong`
returns, and the new sequence is the old one with the first such song taken out: the songs
before it (none of which matches) and all the songs after it stay, in order, and `count`
goes down by one. -/
theorem removeSong_removes_first_match (st : State) (title : List Nat) (xs : List SongData)
    (hs : songs st = some xs) (hstr : ∀ x ∈ xs, IsCStr x.title) (ht : IsCStr title)
    (hex : ∃ x ∈ xs, FoldEq x.title title) :
    ∃ st1 l1 x l2, removeSong st title = some st1 ∧ xs = l1 ++ x :: l2 ∧
      (∀ y ∈ l1, ¬ FoldEq y.title title) ∧ FoldEq x.title title ∧
      songs st1 = some (l1 ++ l2) ∧ st1.pl.count = st.pl.count - 1 ∧
      st1.out = st.out ++ [Msg.removed title] := by
  obtain ⟨l, hseg, rfl⟩ := songs_iff.mp hs
  have hiff : ∀ c ∈ l, (strCaseCmpr c.2.title title = 0 ↔ FoldEq c.2.data.title title) := by
    intro c hc
    exact strCaseCmpr_eq_zero_iff (hstr c.2.data (List.mem_map.mpr ⟨c, hc, rfl⟩)) ht
  have hex2 : ∃ c ∈ l, strCaseCmpr c.2.title title = 0 := by
    obtain ⟨x, hx, hfx⟩ := hex
    obtain ⟨c, hc, rfl⟩ := List.mem_map.mp hx
    exact ⟨c, hc, (hiff c hc).mpr hfx⟩
  obtain ⟨k1, c, k2, rfl, hmiss, hhit⟩ :=
    first_match_split (fun c : Nat × Song => strCaseCmpr c.2.title title = 0) l hex2
  obtain ⟨st1, j1, hrun, hseg1, hdata, hcount, hout, _, _⟩ := removeSong_chain hseg hmiss hhit
  refine ⟨st1, k1.map (fun c => c.2.data), c.2.data, k2.map (fun c => c.2.data), hrun,
    by simp, ?_, ?_, ?_, hcount, hout⟩
  · intro y hy
    obtain ⟨d, hd, rfl⟩ := List.mem_map.mp hy
    exact fun hf => hmiss d hd ((hiff d (by simp [hd])).mpr hf)
  · exact (hiff c (by simp)).mp hhit
  · rw [songs_of_seg hseg1, List.map_append, hdata]

/-- C6 (as amended): on a playlist that is not empty and has no song whose title equals
`title` after ASCII case folding, `removeSong` prints the not-found error and changes
nothing else: heap and playlist record, hence the songs, their order and `count`, stay. -/
theorem removeSong_not_found (st : State) (title : List Nat) (xs : List SongData)
    (hs : songs st = some xs) (hne : xs ≠ []) (hstr : ∀ x ∈ xs, IsCStr x.title)
    (ht : IsCStr title) (hno : ∀ x ∈ xs, ¬ FoldEq x.title title) :
    removeSong st title = some { st with out := st.out ++ [Msg.errNotFound title] } := by
  obtain ⟨l, hseg, rfl⟩ := songs_iff.mp hs
  have hmiss : ∀ c ∈ l, strCaseCmpr c.2.title title ≠ 0 := by
    intro c hc h0
    have hmem : c.2.data ∈ l.map (fun c => c.2.data) := List.mem_map.mpr ⟨c, hc, rfl⟩
    exact hno _ hmem ((strCaseCmpr_eq_zero_iff (hstr _ hmem) ht).mp h0)
  obtain ⟨q, hq⟩ := removeLoop_miss hseg hmiss (st.heap.length + 1) none
    (Nat.lt_succ_of_le (seg_length_le hseg))
  cases l with
  | nil => simp at hne
  | cons c l =>
    have hhead := (seg_cons.mp hseg).1
    rw [hhead] at hq
    simp only [removeSong, hhead, hq]

/-- C7: on an empty playlist `removeSong` prints the empty-playlist error, whatever the
title, and changes nothing else: the playlist stays empty and `count` keeps its value. -/
theorem removeSong_empty (st : State) (title : List Nat) (hs : songs st = some []) :
    removeSong st title = some { st with out := st.out ++ [Msg.errEmpty] } ∧
      songs { st with out := st.out ++ [Msg.errEmpty] } = some [] ∧
      ({ st with out := st.out ++ [Msg.errEmpty] } : State).pl.count = st.pl.count := by
  obtain ⟨l, hseg, hl⟩ := songs_iff.mp hs
  have hl2 : l = [] := by simpa using hl
  subst hl2
  have hhead := seg_nil.mp hseg
  refine ⟨?_, ?_, rfl⟩
  · simp only [removeSong, hhead]
  · exact hs

/-! ## `addSong` -/

theorem addSong_holds {st : State} {l : List (Nat × Song)} (title artist : List Nat)
    (duration : Int) (h : Holds st l) (ht : title.length < MAX_STR)
    (ha : artist.length < MAX_STR) :
    ∃ st1 l1, addSong st title artist duration = some st1 ∧
      Holds st1 (l1 ++ [(st.heap.length, ⟨title, artist, duration, none⟩)]) ∧
      l1.map (fun c => c.2.data) = l.map (fun c => c.2.data) ∧
      st1.out = st.out ++ [Msg.added title artist] ∧ st1.pl.name = st.pl.name ∧
      l1.map (fun c => c.1) = l.map (fun c => c.1) := by
  obtain ⟨hseg, htail, hcount⟩ := h
  have hnd := seg_nodup hseg
  have hcreate : createSong st.heap title artist duration =
      some (st.heap ++ [some ⟨title, artist, duration, none⟩], st.heap.length) := by
    simp [createSong, ht, ha]
  rcases List.eq_nil_or_concat l with rfl | ⟨k, d, hk⟩
  · have hhead := seg_nil.mp hseg
    simp only [addSong, hcreate, hhead]
    refine ⟨_, [], rfl, ⟨?_, ?_, ?_⟩, rfl, rfl, rfl, rfl⟩
    · exact seg_cons.mpr ⟨rfl, deref_append_new _ _, seg_nil.mpr rfl⟩
    · simp
    · simp [hcount]
  · rw [List.concat_eq_append] at hk
    subst hk
    obtain ⟨r, hk, hd⟩ := seg_append.mp hseg
    obtain ⟨hr, hdd, hdn⟩ := seg_cons.mp hd
    rw [seg_nil] at hdn
    subst hr
    have hhead : ∃ a, st.pl.head = some a := by
      cases k with
      | nil => exact ⟨d.1, seg_nil.mp hk⟩
      | cons e k => exact ⟨e.1, (seg_cons.mp hk).1⟩
    obtain ⟨a, hhead⟩ := hhead
    have htail2 : st.pl.tail = some d.1 := by simpa using htail
    have hdlt := deref_lt hdd
    have hdk : d.1 ∉ k.map (fun e => e.1) := by
      simp only [List.map_append, List.map_cons, List.map_nil] at hnd
      have h3 := (List.nodup_append.mp hnd).2.2
      intro hmem
      exact h3 hmem (List.mem_singleton_self _)
    simp only [addSong, hcreate, hhead, htail2, deref_append _ hdd]
    refine ⟨_, k ++ [(d.1, { d.2 with next := some st.heap.length })], rfl, ⟨?_, ?_, ?_⟩,
      ?_, rfl, rfl, by simp⟩
    · show Seg _ (some a) _ none
      rw [← hhead, List.append_assoc, seg_append]
      refine ⟨some d.1, seg_set d.1 _ (seg_grow _ hk) hdk, ?_⟩
      refine seg_cons.mpr ⟨rfl, ?_, seg_cons.mpr ⟨rfl, ?_, seg_nil.mpr rfl⟩⟩
      · exact deref_set_eq _ (by simp; omega)
      · show deref _ st.heap.length = _
        rw [deref_set_ne _ _ (Nat.ne_of_lt hdlt)]
        exact deref_append_new _ _
    · simp
    · simp [hcount]
      ring
    · simp [Song.data]

theorem addSong_some_fits {st st1 : State} {title artist : List Nat} {duration : Int}
    (h : addSong st title artist duration = some st1) :
    title.length < MAX_STR ∧ artist.length < MAX_STR := by
  by_contra hfit
  simp [addSong, createSong, hfit] at h

theorem addAll_holds {st : State} {l : List (Nat × Song)} (xs : List SongData)
    (h : Holds st l) (hfit : ∀ x ∈ xs, x.title.length < MAX_STR ∧ x.artist.length < MAX_STR) :
    ∃ st1 l1, addAll st xs = some st1 ∧ Holds st1 l1 ∧
      l1.map (fun c => c.2.data) = l.map (fun c => c.2.data) ++ xs ∧
      st1.pl.name = st.pl.name := by
  induction xs generalizing st l with
  | nil => exact ⟨st, l, rfl, h, by simp, rfl⟩
  | cons x xs ih =>
    have hx := hfit x (List.mem_cons_self x xs)
    obtain ⟨st1, l1, hrun, hh, hdata, _, hname, _⟩ := addSong_holds x.title x.artist x.duration h hx.1 hx.2
    obtain ⟨st2, l2, hrun2, hh2, hdata2, hname2⟩ :=
      ih hh (fun y hy => hfit y (List.mem_cons_of_mem x hy))
    refine ⟨st2, l2, ?_, hh2, ?_, hname2.trans hname⟩
    · simp only [addAll, hrun, hrun2]
    · rw [hdata2, List.map_append, hdata]
      simp [Song.data]

theorem holds_songs {st : State} {l : List (Nat × Song)} (h : Holds st l) :
    songs st = some (l.map (fun c => c.2.data)) ∧
      st.pl.count = ((l.map (fun c => c.2.data)).length : Nat) := by
  refine ⟨songs_of_seg h.1, ?_⟩
  rw [h.2.2, List.length_map]

theorem initPlaylist_holds {st0 st : State} {name : List Nat}
    (h : initPlaylist st0 name = some st) : Holds st [] := by
  unfold initPlaylist at h
  split_ifs at h
  simp only [Option.some.injEq] at h
  subst h
  exact ⟨seg_nil.mpr rfl, rfl, rfl⟩

/-- C3: `initPlaylist` followed by any run of `addSong` calls whose strings fit the
`MAX_STR` buffers returns, and in the state reached `count` is the number of calls and the
songs from `head` are the songs given, in call order. -/
theorem addSong_calls_count_and_order (st0 : State) (name : List Nat) (xs : List SongData)
    (hname : name.length < MAX_STR)
    (hfit : ∀ x ∈ xs, x.title.length < MAX_STR ∧ x.artist.length < MAX_STR) :
    ∃ st1 st, initPlaylist st0 name = some st1 ∧ addAll st1 xs = some st ∧
      st.pl.count = xs.length ∧ songs st = some xs := by
  have hinit : initPlaylist st0 name =
      some { st0 with pl := { name := name, head := none, tail := none, count := 0 } } := by
    simp [initPlaylist, hname]
  obtain ⟨st, l, hrun, hh, hdata, _⟩ := addAll_holds xs (initPlaylist_holds hinit) hfit
  have hs := holds_songs hh
  simp only [List.map_nil, List.nil_append] at hdata
  rw [hdata] at hs
  exact ⟨_, st, hinit, hrun, hs.2, hs.1⟩

/-! ## `searchSong` -/

theorem strstr_isSome_iff (hay needle : List Nat) :
    (strstr hay needle).isSome = true ↔ needle <:+: hay := by
  induction hay with
  | nil =>
    simp only [strstr, List.infix_nil]
    split_ifs with h <;> simp [h]
  | cons c hay ih =>
    simp only [strstr, List.infix_cons_iff]
    by_cases hp : needle.isPrefixOf (c :: hay) = true
    · simp only [hp, if_true, Option.isSome_some, true_iff]
      exact Or.inl (List.isPrefixOf_iff_prefix.mp hp)
    · simp only [hp, if_false, Bool.false_eq_true]
      rw [ih]
      constructor
      · exact Or.inr
      · rintro (h | h)
        · exact absurd (List.isPrefixOf_iff_prefix.mpr h) hp
        · exact h

theorem searchLoop_seg {heap : Heap} (keyword : List Nat) {l : List (Nat × Song)}
    {p : Option Nat} (hseg : Seg heap p l none) :
    ∀ (fuel : Nat) (found : Bool) (out : List Msg), l.length < fuel →
      searchLoop heap keyword fuel p found out =
        some (found || l.any (fun c =>
            (strstr c.2.title keyword).isSome || (strstr c.2.artist keyword).isSome),
          out ++ (l.filter (fun c =>
            (strstr c.2.title keyword).isSome || (strstr c.2.artist keyword).isSome)).map
              (fun c => Msg.searchHit c.2.title c.2.artist (c.2.duration.tdiv 60)
                (c.2.duration.tmod 60))) := by
  induction l generalizing p with
  | nil =>
    intro fuel found out hf
    rw [seg_nil] at hseg
    subst hseg
    cases fuel with
    | zero => simp at hf
    | succ fuel => simp [searchLoop]
  | cons c l ih =>
    intro fuel found out hf
    obtain ⟨hp, hd, hl⟩ := seg_cons.mp hseg
    subst hp
    cases fuel with
    | zero => simp at hf
    | succ fuel =>
      simp only [List.length_cons, Nat.add_lt_add_iff_right] at hf
      simp only [searchLoop, hd]
      by_cases hm : ((strstr c.2.title keyword).isSome ||
          (strstr c.2.artist keyword).isSome) = true
      · rw [if_pos hm, ih hl fuel _ _ hf]
        simp [List.filter_cons, hm]
      · rw [if_neg hm, ih hl fuel _ _ hf]
        simp only [Bool.not_eq_true] at hm
        simp [List.filter_cons, hm]

theorem searchSong_songs {st : State} {xs : List SongData} (keyword : List Nat)
    (hs : songs st = some xs) :
    searchSong st keyword = some { st with out := st.out ++
      (if xs = [] then [Msg.searchEmpty] else
        Msg.searchHeader keyword ::
          ((xs.filter (fun x =>
              (strstr x.title keyword).isSome || (strstr x.artist keyword).isSome)).map
            (fun x => Msg.searchHit x.title x.artist (x.duration.tdiv 60) (x.duration.tmod 60))
          ++ (if xs.any (fun x =>
              (strstr x.title keyword).isSome || (strstr x.artist keyword).isSome) = true
            then [] else [Msg.noMatches]))) } := by
  obtain ⟨l, hseg, hxs⟩ := songs_iff.mp hs
  have hloop := searchLoop_seg keyword hseg (st.heap.length + 1) false
    (st.out ++ [Msg.searchHeader keyword]) (Nat.lt_succ_of_le (seg_length_le hseg))
  have hfilter : (l.filter (fun c =>
      (strstr c.2.title keyword).isSome || (strstr c.2.artist keyword).isSome)).map
        (fun c => Msg.searchHit c.2.title c.2.artist (c.2.duration.tdiv 60)
          (c.2.duration.tmod 60)) =
      (xs.filter (fun x =>
        (strstr x.title keyword).isSome || (strstr x.artist keyword).isSome)).map
        (fun x => Msg.searchHit x.title x.artist (x.duration.tdiv 60) (x.duration.tmod 60)) := by
    rw [← hxs, List.filter_map, List.map_map]
    rfl
  have hany : l.any (fun c =>
      (strstr c.2.title keyword).isSome || (strstr c.2.artist keyword).isSome) =
      xs.any (fun x => (strstr x.title keyword).isSome || (strstr x.artist keyword).isSome) := by
    rw [← hxs]
    clear hloop hfilter hseg hxs hs
    induction l with
    | nil => rfl
    | cons c l ih => simp only [List.any_cons, List.map_cons, ih, Song.data]
  rw [hfilter, hany, Bool.false_or] at hloop
  cases l with
  | nil =>
    have hhead := seg_nil.mp hseg
    have hnil : xs = [] := by simpa using hxs.symm
    simp [searchSong, hhead, hnil]
  | cons c l =>
    have hhead := (seg_cons.mp hseg).1
    have hne : xs ≠ [] := by
      rw [← hxs]
      simp
    rw [hhead] at hloop
    simp only [searchSong, hhead, hloop, hne, if_false]
    congr 2
    split_ifs with h1 <;> simp

/-- C4: on a playlist with the songs `xs`, `searchSong` returns and changes nothing but
the output. On an empty playlist it prints the empty-playlist line. Otherwise it prints the
header, then one hit line for each song whose title or artist has the keyword as a
contiguous run of bytes (compared as they are), once each and in playlist order, and then
the no-matches line exactly when no song is such. -/
theorem searchSong_reports_substring_matches (st : State) (keyword : List Nat)
    (xs : List SongData) (hs : songs st = some xs) :
    ∃ st1, searchSong st keyword = some st1 ∧ st1.heap = st.heap ∧ st1.pl = st.pl ∧
      st1.out = st.out ++
        (if xs = [] then [Msg.searchEmpty] else
          Msg.searchHeader keyword ::
            ((xs.filter (fun x => decide (keyword <:+: x.title ∨ keyword <:+: x.artist))).map
              (fun x => Msg.searchHit x.title x.artist (x.duration.tdiv 60)
                (x.duration.tmod 60))
            ++ (if ∃ x ∈ xs, keyword <:+: x.title ∨ keyword <:+: x.artist then []
                else [Msg.noMatches]))) := by
  refine ⟨_, searchSong_songs keyword hs, rfl, rfl, ?_⟩
  have hB : ∀ x : SongData,
      ((strstr x.title keyword).isSome || (strstr x.artist keyword).isSome) =
        decide (keyword <:+: x.title ∨ keyword <:+: x.artist) := by
    intro x
    rw [Bool.eq_iff_iff]
    simp [strstr_isSome_iff]
  simp only [hB, List.any_eq_true, decide_eq_true_eq]

/-! ## `displayPlaylist` -/

theorem wrap32_add_wrap32 (a b : Int) : wrap32 (wrap32 a + b) = wrap32 (a + b) := by
  unfold wrap32
  omega

theorem wrap32_of_isInt32 {a : Int} (h : IsInt32 a) : wrap32 a = a := by
  unfold IsInt32 at h
  unfold wrap32
  omega

theorem displayLoop_seg {heap : Heap} {l : List (Nat × Song)} {p : Option Nat}
    (hseg : Seg heap p l none) :
    ∀ (fuel : Nat) (t : Int) (out : List Msg), l.length < fuel →
      displayLoop heap fuel p (wrap32 t) out =
        some (wrap32 (t + (l.map (fun c => c.2.duration)).sum),
          out ++ l.map (fun c => Msg.row c.2.title c.2.artist (c.2.duration.tdiv 60)
            (c.2.duration.tmod 60))) := by
  induction l generalizing p with
  | nil =>
    intro fuel t out hf
    rw [seg_nil] at hseg
    subst hseg
    cases fuel with
    | zero => simp at hf
    | succ fuel => simp [displayLoop]
  | cons c l ih =>
    intro fuel t out hf
    obtain ⟨hp, hd, hl⟩ := seg_cons.mp hseg
    subst hp
    cases fuel with
    | zero => simp at hf
    | succ fuel =>
      simp only [List.length_cons, Nat.add_lt_add_iff_right] at hf
      simp only [displayLoop, hd, wrap32_add_wrap32]
      rw [ih hl fuel _ _ hf]
      simp [add_assoc]

theorem displayPlaylist_songs {st : State} {xs : List SongData} (hs : songs st = some xs)
    (hne : xs ≠ []) :
    displayPlaylist st = some { st with
      out := st.out ++
        [Msg.displayHeader st.pl.name st.pl.count, Msg.columns, Msg.rule] ++
        xs.map (fun x => Msg.row x.title x.artist (x.duration.tdiv 60) (x.duration.tmod 60)) ++
        [Msg.rule, Msg.total ((wrap32 (xs.map (fun x => x.duration)).sum).tdiv 60)
          ((wrap32 (xs.map (fun x => x.duration)).sum).tmod 60)] } := by
  obtain ⟨l, hseg, hxs⟩ := songs_iff.mp hs
  have hloop := displayLoop_seg hseg (st.heap.length + 1) 0
    (st.out ++ [Msg.displayHeader st.pl.name st.pl.count, Msg.columns, Msg.rule])
    (Nat.lt_succ_of_le (seg_length_le hseg))
  have h0 : wrap32 0 = 0 := by decide
  have hrows : l.map (fun c => Msg.row c.2.title c.2.artist (c.2.duration.tdiv 60)
      (c.2.duration.tmod 60)) =
      xs.map (fun x => Msg.row x.title x.artist (x.duration.tdiv 60) (x.duration.tmod 60)) := by
    rw [← hxs, List.map_map]
    rfl
  have hsum : l.map (fun c => c.2.duration) = xs.map (fun x => x.duration) := by
    rw [← hxs, List.map_map]
    rfl
  rw [h0, hrows, hsum, zero_add] at hloop
  cases l with
  | nil => exact absurd (by simpa using hxs.symm) hne
  | cons c l =>
    have hhead := (seg_cons.mp hseg).1
    rw [hhead] at hloop
    simp only [displayPlaylist, hhead, hloop]

/-- C9: on a playlist with songs `xs`, not empty, `displayPlaylist` returns and prints the
header, one row per song in order, and the total line with `total / 60` minutes and
`total % 60` seconds (C division), where `total` is the sum of the durations in 32-bit
`int` arithmetic; it is the exact sum whenever that sum fits an `int`. Nothing but the
output changes. -/
theorem displayPlaylist_total (st : State) (xs : List SongData) (hs : songs st = some xs)
    (hne : xs ≠ []) :
    ∃ (st1 : State) (total : Int), displayPlaylist st = some st1 ∧
      st1.heap = st.heap ∧ st1.pl = st.pl ∧
      st1.out = st.out ++
        [Msg.displayHeader st.pl.name st.pl.count, Msg.columns, Msg.rule] ++
        xs.map (fun x => Msg.row x.title x.artist (x.duration.tdiv 60) (x.duration.tmod 60)) ++
        [Msg.rule, Msg.total (total.tdiv 60) (total.tmod 60)] ∧
      total = wrap32 (xs.map (fun x => x.duration)).sum ∧
      (IsInt32 (xs.map (fun x => x.duration)).sum → total = (xs.map (fun x => x.duration)).sum) :=
  ⟨_, _, displayPlaylist_songs hs hne, rfl, rfl, rfl, rfl, wrap32_of_isInt32⟩

/-! ## `savePlaylist` -/

theorem fmtNatAux_digits (fuel n : Nat) (acc : List Nat) (h : n < fuel) :
    fmtNatAux fuel n acc =
      (if n = 0 then [48] else ((Nat.digits 10 n).reverse.map (fun k => 48 + k))) ++ acc := by
  induction fuel generalizing n acc with
  | zero => omega
  | succ fuel ih =>
    unfold fmtNatAux
    by_cases h10 : n < 10
    · rw [if_pos h10]
      by_cases hn : n = 0
      · simp [hn]
      · rw [if_neg hn, Nat.digits_of_lt 10 n hn h10]
        rfl
    · rw [if_neg h10]
      have hn : n ≠ 0 := by omega
      have hdiv : n / 10 ≠ 0 := by omega
      rw [ih (n / 10) _ (by omega), if_neg hdiv, if_neg hn]
      rw [Nat.digits_def' (by norm_num : 1 < 10) (by omega : 0 < n)]
      simp

theorem fmtNat_digits (n : Nat) :
    fmtNat n = if n = 0 then [48] else ((Nat.digits 10 n).reverse.map (fun k => 48 + k)) := by
  unfold fmtNat
  rw [fmtNatAux_digits (n + 1) n [] (Nat.lt_succ_self n), List.append_nil]

theorem saveLoop_seg {heap : Heap} {l : List (Nat × Song)} {p : Option Nat}
    (hseg : Seg heap p l none) :
    ∀ (fuel : Nat) (written : List Nat), l.length < fuel →
      saveLoop heap fuel p written = some (written ++ (l.map (fun c => saveLine c.2)).flatten) := by
  induction l generalizing p with
  | nil =>
    intro fuel written hf
    rw [seg_nil] at hseg
    subst hseg
    cases fuel with
    | zero => simp at hf
    | succ fuel => simp [saveLoop]
  | cons c l ih =>
    intro fuel written hf
    obtain ⟨hp, hd, hl⟩ := seg_cons.mp hseg
    subst hp
    cases fuel with
    | zero => simp at hf
    | succ fuel =>
      simp only [List.length_cons, Nat.add_lt_add_iff_right] at hf
      simp only [saveLoop, hd]
      rw [ih hl fuel _ hf]
      simp

theorem savePlaylist_songs {st : State} {xs : List SongData} (fs : SaveFile)
    (hs : songs st = some xs) (hw : fs.writable = true) :
    savePlaylist st fs = some ({ st with out := st.out ++ [Msg.saved] },
      { fs with content := some ((xs.map (fun x =>
        x.title ++ [124] ++ x.artist ++ [124] ++ fmtInt x.duration ++ [10])).flatten) }) := by
  obtain ⟨l, hseg, hxs⟩ := songs_iff.mp hs
  have hloop := saveLoop_seg hseg (st.heap.length + 1) []
    (Nat.lt_succ_of_le (seg_length_le hseg))
  have hlines : l.map (fun c => saveLine c.2) = xs.map (fun x =>
      x.title ++ [124] ++ x.artist ++ [124] ++ fmtInt x.duration ++ [10]) := by
    rw [← hxs, List.map_map]
    rfl
  rw [hlines, List.nil_append] at hloop
  simp only [savePlaylist, hw, if_true, hloop]

/-- C10: when the file opens for writing, `savePlaylist` on a playlist with songs `xs`
returns and leaves in the file, whatever it held before, exactly the lines of the songs in
order and nothing else; the line of a song is its title, `|`, its artist, `|`, its
duration and a newline, and the duration is written in base 10: a minus sign if it is
negative, then the decimal digits of its absolute value, most significant first (`0` for
zero). -/
theorem savePlaylist_writes_lines (st : State) (fs : SaveFile) (xs : List SongData)
    (hs : songs st = some xs) (hw : fs.writable = true) :
    (∃ st1 fs1, savePlaylist st fs = some (st1, fs1) ∧ st1.heap = st.heap ∧ st1.pl = st.pl ∧
      fs1.content = some ((xs.map (fun x =>
        x.title ++ [124] ++ x.artist ++ [124] ++ fmtInt x.duration ++ [10])).flatten)) ∧
    ∀ d : Int, fmtInt d = (if d < 0 then [45] else []) ++
      (if d.natAbs = 0 then [48] else ((Nat.digits 10 d.natAbs).reverse.map (fun k => 48 + k))) := by
  refine ⟨⟨_, _, savePlaylist_songs fs hs hw, rfl, rfl, rfl⟩, ?_⟩
  intro d
  unfold fmtInt
  rw [fmtNat_digits]
  split_ifs <;> simp

/-! ## Printing and reading back an `int` -/

theorem fmtNat_digit_chars (n : Nat) : ∀ c ∈ fmtNat n, 48 ≤ c ∧ c ≤ 57 := by
  intro c hc
  rw [fmtNat_digits] at hc
  split_ifs at hc with hn
  · simp at hc
    omega
  · simp only [List.mem_map, List.mem_reverse] at hc
    obtain ⟨k, hk, rfl⟩ := hc
    have := Nat.digits_lt_base (by norm_num : 1 < 10) hk
    omega

theorem fmtNat_ne_nil (n : Nat) : fmtNat n ≠ [] := by
  rw [fmtNat_digits]
  split_ifs with hn
  · simp
  · simp only [ne_eq, List.map_eq_nil_iff, List.reverse_eq_nil_iff]
    exact Nat.digits_ne_nil_iff_ne_zero.mpr hn

theorem fmtNat_length (n : Nat) (h : n < 10 ^ 10) : (fmtNat n).length ≤ 10 := by
  rw [fmtNat_digits]
  split_ifs with hn
  · simp
  · simp only [List.length_map, List.length_reverse]
    rw [Nat.digits_len 10 n (by norm_num) hn]
    have := Nat.log_lt_of_lt_pow hn h
    omega

theorem atoiDigits_map (L : List Nat) (a : Nat) (h : ∀ d ∈ L, d < 10) :
    atoiDigits (L.map (fun k => 48 + k)) a = L.foldl (fun a d => a * 10 + d) a := by
  induction L generalizing a with
  | nil => rfl
  | cons d L ih =>
    have hd := h d (List.mem_cons_self d L)
    have hdig : isdigit (48 + d) = true := by
      simp only [isdigit, Bool.and_eq_true, decide_eq_true_eq]
      omega
    simp only [List.map_cons, atoiDigits, hdig, if_true, List.foldl_cons]
    rw [ih _ (fun e he => h e (List.mem_cons_of_mem d he))]
    congr 1
    omega

theorem atoiDigits_fmtNat (n : Nat) : atoiDigits (fmtNat n) 0 = n := by
  rw [fmtNat_digits]
  split_ifs with hn
  · subst hn
    rfl
  · rw [atoiDigits_map _ _ (fun d hd =>
      Nat.digits_lt_base (by norm_num : 1 < 10) (List.mem_reverse.mp hd)), List.foldl_reverse]
    have hf : (fun (x y : Nat) => y * 10 + x) = (fun x y => x + 10 * y) := by
      funext x y
      omega
    have h2 := Nat.ofDigits_eq_foldr (10 : Nat) (Nat.digits 10 n)
    simp only [Nat.cast_id] at h2
    rw [hf, ← h2, Nat.ofDigits_digits]

theorem clampLong_of_range (x : Int) (h1 : -(2 ^ 63) ≤ x) (h2 : x < 2 ^ 63) :
    clampLong x = x := by
  unfold clampLong LONG_MIN LONG_MAX
  rw [if_neg (by omega), if_neg (by omega)]

theorem atoi_of_digit_head (c : Nat) (r : List Nat) (hc : isdigit c = true) :
    atoi (c :: r) = wrap32 (clampLong (atoiDigits (c :: r) 0)) := by
  simp only [isdigit, Bool.and_eq_true, decide_eq_true_eq] at hc
  have hsp : isspace c = false := by
    simp only [isspace, Bool.or_eq_false_iff, decide_eq_false_iff_not, Bool.and_eq_false_iff]
    omega
  have h45 : c ≠ 45 := by omega
  have h43 : c ≠ 43 := by omega
  unfold atoi strtol
  rw [List.dropWhile_cons_of_neg (by simp [hsp])]
  simp only [h45, h43, if_false]

theorem atoi_fmtInt (d : Int) (h : IsInt32 d) : atoi (fmtInt d) = d := by
  unfold IsInt32 at h
  unfold fmtInt
  split_ifs with hneg
  · unfold atoi strtol
    have hsp : isspace 45 = false := by decide
    rw [List.dropWhile_cons_of_neg (by simp [hsp])]
    simp only [if_true, atoiDigits_fmtNat]
    rw [clampLong_of_range _ (by omega) (by omega)]
    unfold wrap32
    omega
  · obtain ⟨c, r, hcr⟩ := List.exists_cons_of_ne_nil (fmtNat_ne_nil d.natAbs)
    have hc := fmtNat_digit_chars d.natAbs c (by rw [hcr]; exact List.mem_cons_self c r)
    have hdig : isdigit c = true := by
      simp only [isdigit, Bool.and_eq_true, decide_eq_true_eq]
      exact hc
    rw [hcr, atoi_of_digit_head c r hdig, ← hcr, atoiDigits_fmtNat]
    rw [clampLong_of_range _ (by omega) (by omega)]
    unfold wrap32
    omega

/-- A decimal string from `2^63` on is read as `LONG_MAX`, whose low 32 bits are -1; one
below `-2^63` is read as `LONG_MIN`, whose low 32 bits are 0. -/
theorem atoi_saturates :
    atoi (cstr "99999999999999999999") = -1 ∧ atoi (cstr "9223372036854775808") = -1 ∧
    atoi (cstr "9223372036854775807") = -1 ∧ atoi (cstr "-99999999999999999999") = 0 ∧
    atoi (cstr "4294967297") = 1 ∧ atoi (cstr "2147483648") = -2147483648 ∧
    atoi (cstr " +42abc") = 42 ∧ atoi (cstr "abc") = 0 := by
  decide

theorem fmtInt_chars (d : Int) : ∀ c ∈ fmtInt d, c = 45 ∨ (48 ≤ c ∧ c ≤ 57) := by
  intro c hc
  unfold fmtInt at hc
  split_ifs at hc
  · rcases List.mem_cons.mp hc with rfl | hc
    · exact Or.inl rfl
    · exact Or.inr (fmtNat_digit_chars _ c hc)
  · exact Or.inr (fmtNat_digit_chars _ c hc)

theorem fmtInt_ne_nil (d : Int) : fmtInt d ≠ [] := by
  unfold fmtInt
  split_ifs
  · simp
  · exact fmtNat_ne_nil _

theorem fmtInt_length (d : Int) (h : IsInt32 d) : (fmtInt d).length ≤ 11 := by
  unfold IsInt32 at h
  have hlt : d.natAbs < 10 ^ 10 := by omega
  have := fmtNat_length d.natAbs hlt
  unfold fmtInt
  split_ifs
  · simp only [List.length_cons]
    omega
  · omega

/-! ## Reading a saved line back -/

theorem fgets_line (body rest : List Nat) (hnl : 10 ∉ body) :
    ∀ n, body.length < n → fgets n (body ++ 10 :: rest) = (body ++ [10], rest) := by
  induction body with
  | nil =>
    intro n hn
    cases n with
    | zero => simp at hn
    | succ n => simp [fgets]
  | cons c body ih =>
    intro n hn
    simp only [List.mem_cons, not_or] at hnl
    cases n with
    | zero => simp at hn
    | succ n =>
      simp only [List.length_cons, Nat.add_lt_add_iff_right] at hn
      have hc : c ≠ 10 := fun h => hnl.1 h.symm
      have e := ih hnl.2 n hn
      show fgets (n + 1) (c :: (body ++ 10 :: rest)) = _
      rw [fgets, if_neg hc, e]
      rfl

theorem ofBuffer_eq_self (buf : List Nat) (h : 0 ∉ buf) : ofBuffer buf = buf := by
  unfold ofBuffer
  rw [List.takeWhile_eq_self_iff]
  intro x hx
  simp only [ne_eq, decide_not, Bool.not_eq_true', decide_eq_false_iff_not]
  rintro rfl
  exact h hx

theorem chomp_line (body : List Nat) (h : 10 ∉ body) : chomp (body ++ [10]) = body := by
  unfold chomp
  rw [List.takeWhile_append_of_pos]
  · simp
  · intro x hx
    simp only [ne_eq, decide_not, Bool.not_eq_true', decide_eq_false_iff_not]
    rintro rfl
    exact h hx

theorem strtok_token (tok rest : List Nat) (hne : tok ≠ []) (hbar : 124 ∉ tok) :
    strtok (tok ++ 124 :: rest) = (some tok, rest) := by
  obtain ⟨c, t, rfl⟩ := List.exists_cons_of_ne_nil hne
  have hc : c ≠ 124 := fun h => hbar (by simp [h])
  have hall : ∀ x ∈ c :: t, (decide (x ≠ 124)) = true := by
    intro x hx
    simp only [ne_eq, decide_not, Bool.not_eq_true', decide_eq_false_iff_not]
    rintro rfl
    exact hbar hx
  unfold strtok
  rw [List.cons_append, List.dropWhile_cons_of_neg (by simp [hc])]
  simp only
  rw [← List.cons_append, List.takeWhile_append_of_pos hall,
    List.dropWhile_append_of_pos hall]
  simp

theorem strtok_last (tok : List Nat) (hne : tok ≠ []) (hbar : 124 ∉ tok) :
    strtok tok = (some tok, []) := by
  obtain ⟨c, t, rfl⟩ := List.exists_cons_of_ne_nil hne
  have hc : c ≠ 124 := fun h => hbar (by simp [h])
  have hall : ∀ x ∈ c :: t, (decide (x ≠ 124)) = true := by
    intro x hx
    simp only [ne_eq, decide_not, Bool.not_eq_true', decide_eq_false_iff_not]
    rintro rfl
    exact hbar hx
  unfold strtok
  rw [List.dropWhile_cons_of_neg (by simp [hc])]
  simp only
  rw [List.takeWhile_eq_self_iff.mpr hall, List.dropWhile_eq_nil_iff.mpr hall]
  rfl

theorem parseLine_saved (x : SongData) (loc : Locals) (h : WellFormed x) :
    parseLine (x.title ++ [124] ++ x.artist ++ [124] ++ fmtInt x.duration) loc =
      some { title := x.title, artist := x.artist, duration := x.duration } := by
  obtain ⟨ht, ha, htl, hal, _, _, htb, _, hab, _, hd⟩ := h
  have hdb : 124 ∉ fmtInt x.duration := by
    intro hmem
    rcases fmtInt_chars _ 124 hmem with h1 | h1 <;> omega
  have h1 : x.title ++ [124] ++ x.artist ++ [124] ++ fmtInt x.duration =
      x.title ++ 124 :: (x.artist ++ 124 :: fmtInt x.duration) := by simp
  have htfit : x.title.length < MAX_STR := by
    unfold MAX_STR
    omega
  have hafit : x.artist.length < MAX_STR := by
    unfold MAX_STR
    omega
  simp only [parseLine, h1, strtok_token _ _ ht htb, strtok_token _ _ ha hab,
    strtok_last _ (fmtInt_ne_nil _) hdb, strcpy, htfit, hafit, if_true, atoi_fmtInt _ hd]

/-! ## Round trip through the file -/

theorem saved_body_facts (x : SongData) (h : WellFormed x) :
    10 ∉ x.title ++ [124] ++ x.artist ++ [124] ++ fmtInt x.duration ∧
    0 ∉ x.title ++ [124] ++ x.artist ++ [124] ++ fmtInt x.duration ++ [10] ∧
    (x.title ++ [124] ++ x.artist ++ [124] ++ fmtInt x.duration).length < 255 ∧
    x.title ++ [124] ++ x.artist ++ [124] ++ fmtInt x.duration ≠ [] := by
  obtain ⟨ht, ha, htl, hal, hts, has, htb, htn, hab, han, hd⟩ := h
  have hlen := fmtInt_length x.duration hd
  have hch := fmtInt_chars x.duration
  refine ⟨?_, ?_, ?_, ?_⟩
  · simp only [List.mem_append, List.mem_singleton, not_or]
    refine ⟨⟨⟨⟨htn, by decide⟩, han⟩, by decide⟩, ?_⟩
    intro hmem
    rcases hch 10 hmem with h1 | h1 <;> omega
  · simp only [List.mem_append, List.mem_singleton, not_or]
    refine ⟨⟨⟨⟨⟨?_, by decide⟩, ?_⟩, by decide⟩, ?_⟩, by decide⟩
    · intro hmem
      exact absurd (hts 0 hmem).1 (by decide)
    · intro hmem
      exact absurd (has 0 hmem).1 (by decide)
    · intro hmem
      rcases hch 0 hmem with h1 | h1 <;> omega
  · simp only [List.length_append, List.length_singleton]
    omega
  · intro hnil
    have := congrArg List.length hnil
    simp only [List.length_append, List.length_singleton, List.length_nil] at this
    omega

theorem loadLoop_saved (xs : List SongData) (hwf : ∀ x ∈ xs, WellFormed x) :
    ∀ (fuel : Nat) (loc : Locals) (st : State), xs.length < fuel →
      loadLoop fuel ((xs.map (fun x =>
        x.title ++ [124] ++ x.artist ++ [124] ++ fmtInt x.duration ++ [10])).flatten) loc st =
        addAll st xs := by
  induction xs with
  | nil =>
    intro fuel loc st hf
    cases fuel with
    | zero => simp at hf
    | succ fuel => simp [loadLoop, fgets, addAll]
  | cons x xs ih =>
    intro fuel loc st hf
    cases fuel with
    | zero => simp at hf
    | succ fuel =>
      simp only [List.length_cons, Nat.add_lt_add_iff_right] at hf
      have hx := hwf x (List.mem_cons_self x xs)
      obtain ⟨h10, h0, hlen, hne⟩ := saved_body_facts x hx
      have hsplit : ((x :: xs).map (fun x =>
          x.title ++ [124] ++ x.artist ++ [124] ++ fmtInt x.duration ++ [10])).flatten =
          (x.title ++ [124] ++ x.artist ++ [124] ++ fmtInt x.duration) ++ 10 ::
            ((xs.map (fun x =>
              x.title ++ [124] ++ x.artist ++ [124] ++ fmtInt x.duration ++ [10])).flatten) := by
        simp
      have hfg := fgets_line _ ((xs.map (fun x =>
        x.title ++ [124] ++ x.artist ++ [124] ++ fmtInt x.duration ++ [10])).flatten) h10 255 hlen
      obtain ⟨c, buf, hcb⟩ := List.exists_cons_of_ne_nil
        (show x.title ++ [124] ++ x.artist ++ [124] ++ fmtInt x.duration ++ [10] ≠ [] by simp)
      rw [hsplit, loadLoop, hfg, hcb]
      simp only
      rw [← hcb, ofBuffer_eq_self _ h0, chomp_line _ h10, parseLine_saved x loc hx]
      simp only [addAll]
      cases hadd : addSong st x.title x.artist x.duration with
      | none => rfl
      | some st1 =>
        exact ih (fun y hy => hwf y (List.mem_cons_of_mem x hy)) fuel _ st1 hf

theorem saved_length_ge (xs : List SongData) :
    xs.length ≤ ((xs.map (fun x =>
      x.title ++ [124] ++ x.artist ++ [124] ++ fmtInt x.duration ++ [10])).flatten).length := by
  induction xs with
  | nil => simp
  | cons x xs ih =>
    simp only [List.map_cons, List.flatten_cons, List.length_append, List.length_cons,
      List.length_nil] at ih ⊢
    omega

/-- C2: for songs `xs` that are all well formed (title and artist non-empty C strings of at
most 99 bytes without `|` and newline, duration an `int`), saving a playlist that holds `xs`
and loading the file just written into a freshly initialised playlist both return, and the
playlist loaded holds exactly `xs`, in the same order, with `count` the number of songs
(the `count` of the original, when that one counts its songs). -/
theorem save_load_round_trip (st st0 : State) (fs : SaveFile) (name : List Nat)
    (garbage : Locals) (xs : List SongData) (hs : songs st = some xs)
    (hwf : ∀ x ∈ xs, WellFormed x) (hw : fs.writable = true) (hr : fs.readable = true)
    (hname : name.length < MAX_STR) :
    ∃ st1 fs1 st2 st3, savePlaylist st fs = some (st1, fs1) ∧
      initPlaylist st0 name = some st2 ∧ loadPlaylist st2 fs1 garbage = some st3 ∧
      songs st3 = some xs ∧ st3.pl.count = xs.length ∧
      (st.pl.count = xs.length → st3.pl.count = st.pl.count) := by
  have hinit : initPlaylist st0 name =
      some { st0 with pl := { name := name, head := none, tail := none, count := 0 } } := by
    simp [initPlaylist, hname]
  have hfit : ∀ x ∈ xs, x.title.length < MAX_STR ∧ x.artist.length < MAX_STR := by
    intro x hx
    obtain ⟨_, _, htl, hal, _⟩ := hwf x hx
    unfold MAX_STR
    omega
  obtain ⟨st3, l, hrun, hh, hdata, _⟩ := addAll_holds xs (initPlaylist_holds hinit) hfit
  have hsongs := holds_songs hh
  simp only [List.map_nil, List.nil_append] at hdata
  rw [hdata] at hsongs
  have hload := loadLoop_saved xs hwf (((xs.map (fun x =>
    x.title ++ [124] ++ x.artist ++ [124] ++ fmtInt x.duration ++ [10])).flatten).length + 1)
    garbage { st0 with pl := { name := name, head := none, tail := none, count := 0 } }
    (Nat.lt_succ_of_le (saved_length_ge xs))
  rw [hrun] at hload
  refine ⟨_, _, _, { st3 with out := st3.out ++ [Msg.cleared, Msg.loaded st3.pl.count] },
    savePlaylist_songs fs hs hw, hinit, ?_, hsongs.1, hsongs.2, ?_⟩
  · simp only [loadPlaylist, hr, if_true, hload]
  · intro hc
    rw [hc]
    exact hsongs.2

/-! ## The playlist invariant -/

theorem holds_congr {st st1 : State} {l : List (Nat × Song)} (hheap : st1.heap = st.heap)
    (hpl : st1.pl = st.pl) (h : Holds st l) : Holds st1 l := by
  unfold Holds at h ⊢
  rw [hheap, hpl]
  exact h

theorem addSong_preserves {st st1 : State} {l : List (Nat × Song)} {title artist : List Nat}
    {duration : Int} (h : Holds st l) (hrun : addSong st title artist duration = some st1) :
    ∃ l1, Holds st1 l1 := by
  have hfit := addSong_some_fits hrun
  obtain ⟨st2, l2, hrun2, hh, _⟩ := addSong_holds title artist duration h hfit.1 hfit.2
  rw [hrun2] at hrun
  cases Option.some.inj hrun
  exact ⟨_, hh⟩

theorem removeSong_preserves {st st1 : State} {l : List (Nat × Song)} {title : List Nat}
    (h : Holds st l) (hrun : removeSong st title = some st1) : ∃ l1, Holds st1 l1 := by
  obtain ⟨hseg, htail, hcount⟩ := h
  cases l with
  | nil =>
    have hhead := seg_nil.mp hseg
    simp only [removeSong, hhead, Option.some.injEq] at hrun
    subst hrun
    exact ⟨[], hseg, htail, hcount⟩
  | cons c0 l0 =>
    by_cases hex : ∃ c ∈ c0 :: l0, strCaseCmpr c.2.title title = 0
    · obtain ⟨k1, c, k2, hl, hmiss, hhit⟩ :=
        first_match_split (fun c : Nat × Song => strCaseCmpr c.2.title title = 0) _ hex
      rw [hl] at hseg htail hcount
      obtain ⟨st2, j1, hrun2, hseg2, hdata, hcount2, _, _, htail2, _⟩ :=
        removeSong_chain hseg hmiss hhit
      rw [hrun2] at hrun
      cases Option.some.inj hrun
      have hlen : j1.length = k1.length := by
        have := congrArg List.length hdata
        simpa using this
      refine ⟨j1 ++ k2, hseg2, ?_, ?_⟩
      · rw [htail2]
        by_cases hk2 : k2 = []
        · simp [hk2]
        · rw [if_neg hk2, htail, List.getLast?_append_of_ne_nil _ hk2,
            List.getLast?_append_of_ne_nil _ (List.cons_ne_nil c k2),
            List.getLast?_cons, List.getLast?_eq_getLast _ hk2]
          rfl
      · rw [hcount2, hcount]
        simp only [List.length_append, List.length_cons, hlen]
        push_cast
        ring
    · have hmiss : ∀ c ∈ c0 :: l0, strCaseCmpr c.2.title title ≠ 0 :=
        fun c hc h0 => hex ⟨c, hc, h0⟩
      obtain ⟨q, hq⟩ := removeLoop_miss hseg hmiss (st.heap.length + 1) none
        (Nat.lt_succ_of_le (seg_length_le hseg))
      have hhead := (seg_cons.mp hseg).1
      rw [hhead] at hq
      simp only [removeSong, hhead, hq, Option.some.injEq] at hrun
      subst hrun
      exact ⟨c0 :: l0, hseg, htail, hcount⟩

theorem searchSong_frame {st st1 : State} {keyword : List Nat}
    (hrun : searchSong st keyword = some st1) : st1.heap = st.heap ∧ st1.pl = st.pl := by
  unfold searchSong at hrun
  split at hrun
  · cases Option.some.inj hrun
    exact ⟨rfl, rfl⟩
  · split at hrun
    · exact absurd hrun (by simp)
    · cases Option.some.inj hrun
      exact ⟨rfl, rfl⟩

theorem displayPlaylist_frame {st st1 : State} (hrun : displayPlaylist st = some st1) :
    st1.heap = st.heap ∧ st1.pl = st.pl := by
  unfold displayPlaylist at hrun
  split at hrun
  · cases Option.some.inj hrun
    exact ⟨rfl, rfl⟩
  · split at hrun
    · exact absurd hrun (by simp)
    · cases Option.some.inj hrun
      exact ⟨rfl, rfl⟩

theorem savePlaylist_frame {st st1 : State} {fs fs1 : SaveFile}
    (hrun : savePlaylist st fs = some (st1, fs1)) : st1.heap = st.heap ∧ st1.pl = st.pl := by
  unfold savePlaylist at hrun
  split at hrun
  · split at hrun
    · exact absurd hrun (by simp)
    · cases Option.some.inj hrun
      exact ⟨rfl, rfl⟩
  · cases Option.some.inj hrun
    exact ⟨rfl, rfl⟩

theorem loadLoop_preserves (fuel : Nat) :
    ∀ (rest : List Nat) (loc : Locals) (st st1 : State) (l : List (Nat × Song)),
      Holds st l → loadLoop fuel rest loc st = some st1 → ∃ l1, Holds st1 l1 := by
  induction fuel with
  | zero =>
    intro rest loc st st1 l _ hrun
    simp [loadLoop] at hrun
  | succ fuel ih =>
    intro rest loc st st1 l h hrun
    unfold loadLoop at hrun
    split at hrun
    · cases Option.some.inj hrun
      exact ⟨l, h⟩
    · split at hrun
      · exact absurd hrun (by simp)
      · split at hrun
        · exact absurd hrun (by simp)
        · next st2 hadd =>
          obtain ⟨l2, h2⟩ := addSong_preserves h hadd
          exact ih _ _ _ _ _ h2 hrun

theorem loadPlaylist_preserves {st st1 : State} {l : List (Nat × Song)} {fs : SaveFile}
    {garbage : Locals} (h : Holds st l) (hrun : loadPlaylist st fs garbage = some st1) :
    ∃ l1, Holds st1 l1 := by
  unfold loadPlaylist at hrun
  split at hrun
  · cases Option.some.inj hrun
    exact ⟨l, h⟩
  · split at hrun
    · split at hrun
      · exact absurd hrun (by simp)
      · next st2 hloop =>
        cases Option.some.inj hrun
        obtain ⟨l2, h2⟩ := loadLoop_preserves _ _ _ _ _ _ h hloop
        exact ⟨l2, h2⟩
    · cases Option.some.inj hrun
      exact ⟨l, h⟩

theorem freePlaylist_holds {st st1 : State} (hrun : freePlaylist st = some st1) :
    Holds st1 [] := by
  unfold freePlaylist at hrun
  split at hrun
  · exact absurd hrun (by simp)
  · cases Option.some.inj hrun
    exact ⟨seg_nil.mpr rfl, rfl, rfl⟩

theorem reachable_holds {st : State} (h : Reachable st) : ∃ l, Holds st l := by
  induction h with
  | init st0 st name hrun => exact ⟨[], initPlaylist_holds hrun⟩
  | add st st1 title artist duration _ hrun ih =>
    obtain ⟨l, hl⟩ := ih
    exact addSong_preserves hl hrun
  | remove st st1 title _ hrun ih =>
    obtain ⟨l, hl⟩ := ih
    exact removeSong_preserves hl hrun
  | search st st1 keyword _ hrun ih =>
    obtain ⟨l, hl⟩ := ih
    obtain ⟨h1, h2⟩ := searchSong_frame hrun
    exact ⟨l, holds_congr h1 h2 hl⟩
  | display st st1 _ hrun ih =>
    obtain ⟨l, hl⟩ := ih
    obtain ⟨h1, h2⟩ := displayPlaylist_frame hrun
    exact ⟨l, holds_congr h1 h2 hl⟩
  | save st st1 fs fs1 _ hrun ih =>
    obtain ⟨l, hl⟩ := ih
    obtain ⟨h1, h2⟩ := savePlaylist_frame hrun
    exact ⟨l, holds_congr h1 h2 hl⟩
  | load st st1 fs garbage _ hrun ih =>
    obtain ⟨l, hl⟩ := ih
    exact loadPlaylist_preserves hl hrun
  | release st st1 _ hrun _ => exact ⟨[], freePlaylist_holds hrun⟩

/-- C8: in every state reached from `initPlaylist` by calls of `addSong`, `removeSong`
(whether it removes or fails), `loadPlaylist`, `freePlaylist` and the reading functions,
the chain from `head` ends, and `count` is the number of songs on it. -/
theorem count_is_number_of_songs (st : State) (h : Reachable st) :
    ∃ xs, songs st = some xs ∧ st.pl.count = xs.length := by
  obtain ⟨l, hl⟩ := reachable_holds h
  exact ⟨_, (holds_songs hl).1, (holds_songs hl).2⟩

/-! ## The examples of the specification -/

/-- C1, on the examples of the specification: in the playlist "Song A", "Song B" the title
"song a" selects the first song, and what is left is "Song B" alone with `count` 1; a
playlist holding only "Yesterday" loses it to the title "yesterday" and its `count` goes
from 1 to 0. -/
theorem removeSong_removes_first_match_witness :
    (songs demoAB = some [songA, songB] ∧ (∀ x ∈ [songA, songB], IsCStr x.title) ∧
      IsCStr (cstr "song a") ∧ (∃ x ∈ [songA, songB], FoldEq x.title (cstr "song a"))) ∧
    (∃ st1 l1 x l2, removeSong demoAB (cstr "song a") = some st1 ∧
      [songA, songB] = l1 ++ x :: l2 ∧
      (∀ y ∈ l1, ¬ FoldEq y.title (cstr "song a")) ∧ FoldEq x.title (cstr "song a") ∧
      songs st1 = some (l1 ++ l2) ∧ st1.pl.count = demoAB.pl.count - 1 ∧
      st1.out = demoAB.out ++ [Msg.removed (cstr "song a")]) ∧
    (removeSong demoAB (cstr "song a")).map (fun s => (songs s, s.pl.count)) =
      some (some [songB], 1) ∧
    ((addSong demoInit (cstr "Yesterday") (cstr "The Beatles") 125).bind
      (fun s => (removeSong s (cstr "yesterday")).map (fun s1 => (s.pl.count, s1.pl.count)))) =
      some (1, 0) :=
  ⟨⟨by decide, by decide, by decide, by decide⟩,
    removeSong_removes_first_match demoAB (cstr "song a") [songA, songB] (by decide)
      (by decide) (by decide) (by decide),
    by decide, by decide⟩

/-- C2, on an example: the playlist "Song A", "Song B" saved to a new file and loaded into
a fresh playlist. -/
theorem save_load_round_trip_witness :
    (songs demoAB = some [songA, songB] ∧ (∀ x ∈ [songA, songB], WellFormed x) ∧
      noFile.writable = true ∧ noFile.readable = true ∧
      (cstr "My Favorites").length < MAX_STR) ∧
    ∃ st1 fs1 st2 st3, savePlaylist demoAB noFile = some (st1, fs1) ∧
      initPlaylist emptyState (cstr "My Favorites") = some st2 ∧
      loadPlaylist st2 fs1 ⟨[], [], 0⟩ = some st3 ∧
      songs st3 = some [songA, songB] ∧ st3.pl.count = ([songA, songB].length : Nat) ∧
      (demoAB.pl.count = ([songA, songB].length : Nat) → st3.pl.count = demoAB.pl.count) :=
  ⟨⟨by decide, by decide, by decide, by decide, by decide⟩,
    save_load_round_trip demoAB emptyState noFile (cstr "My Favorites") ⟨[], [], 0⟩
      [songA, songB] (by decide) (by decide) (by decide) (by decide) (by decide)⟩

/-- C3, on an example: two `addSong` calls after `initPlaylist`. -/
theorem addSong_calls_count_and_order_witness :
    ((cstr "My Favorites").length < MAX_STR ∧
      (∀ x ∈ [songA, songB], x.title.length < MAX_STR ∧ x.artist.length < MAX_STR)) ∧
    ∃ st1 st, initPlaylist emptyState (cstr "My Favorites") = some st1 ∧
      addAll st1 [songA, songB] = some st ∧
      st.pl.count = ([songA, songB].length : Nat) ∧ songs st = some [songA, songB] :=
  ⟨⟨by decide, by decide⟩,
    addSong_calls_count_and_order emptyState (cstr "My Favorites") [songA, songB] (by decide)
      (by decide)⟩

/-- C4, on an example: the keyword "Song B" in the playlist "Song A", "Song B". -/
theorem searchSong_reports_substring_matches_witness :
    songs demoAB = some [songA, songB] ∧
    (∃ st1, searchSong demoAB (cstr "Song B") = some st1 ∧ st1.heap = demoAB.heap ∧
      st1.pl = demoAB.pl ∧
      st1.out = demoAB.out ++
        (if [songA, songB] = [] then [Msg.searchEmpty] else
          Msg.searchHeader (cstr "Song B") ::
            (([songA, songB].filter (fun x =>
                decide (cstr "Song B" <:+: x.title ∨ cstr "Song B" <:+: x.artist))).map
              (fun x => Msg.searchHit x.title x.artist (x.duration.tdiv 60)
                (x.duration.tmod 60))
            ++ (if ∃ x ∈ [songA, songB], cstr "Song B" <:+: x.title ∨
                  cstr "Song B" <:+: x.artist then []
                else [Msg.noMatches])))) ∧
    (searchSong demoAB (cstr "Song B")).map (fun s => s.out.drop demoAB.out.length) =
      some [Msg.searchHeader (cstr "Song B"), hitMsg songB] :=
  ⟨by decide, searchSong_reports_substring_matches demoAB (cstr "Song B") [songA, songB]
    (by decide), by decide⟩

/-- C5 (as stated) fails: in a playlist with a song titled "Love Story" and a song by the
artist "Lovers' Lane", the keyword "lov" matches neither, because the comparison is byte for
byte and both texts have a capital `L`: `searchSong` prints the header and the no-matches
line. -/
theorem searchSong_lov_matches_nothing :
    songs demoLove = some loveSongs ∧
    searchSong demoLove (cstr "lov") =
      some { demoLove with
        out := demoLove.out ++ [Msg.searchHeader (cstr "lov"), Msg.noMatches] } := by
  decide

/-- C5 (as amended): on every playlist with a song titled "Love Story" and a song by the
artist "Lovers' Lane", `searchSong` with the keyword "Lov" returns and prints the hit line
of both songs and no no-matches line. With the keyword "lov" or "LOV" neither the title
"Love Story" nor the artist "Lovers' Lane" is matched, and on the same playlist `searchSong`
prints the header followed by the no-matches line exactly when no other title or artist of
the playlist contains the keyword. -/
theorem searchSong_Lov_case_sensitive (st : State) (xs : List SongData) (x1 x2 : SongData)
    (hs : songs st = some xs) (h1 : x1 ∈ xs) (ht : x1.title = cstr "Love Story")
    (h2 : x2 ∈ xs) (ha : x2.artist = cstr "Lovers' Lane") :
    (∃ st1, searchSong st (cstr "Lov") = some st1 ∧
      hitMsg x1 ∈ st1.out.drop st.out.length ∧ hitMsg x2 ∈ st1.out.drop st.out.length ∧
      Msg.noMatches ∉ st1.out.drop st.out.length) ∧
    ∀ kw : List Nat, kw = cstr "lov" ∨ kw = cstr "LOV" →
      strstr (cstr "Love Story") kw = none ∧ strstr (cstr "Lovers' Lane") kw = none ∧
      (searchSong st kw =
          some { st with out := st.out ++ [Msg.searchHeader kw, Msg.noMatches] } ↔
        ∀ x ∈ xs, (x.title = cstr "Love Story" ∨ ¬ kw <:+: x.title) ∧
          (x.artist = cstr "Lovers' Lane" ∨ ¬ kw <:+: x.artist)) := by
  have hne : xs ≠ [] := List.ne_nil_of_mem h1
  have hb1 : ((strstr x1.title (cstr "Lov")).isSome ||
      (strstr x1.artist (cstr "Lov")).isSome) = true := by
    rw [ht]
    have : (strstr (cstr "Love Story") (cstr "Lov")).isSome = true := by decide
    rw [this]
    rfl
  have hb2 : ((strstr x2.title (cstr "Lov")).isSome ||
      (strstr x2.artist (cstr "Lov")).isSome) = true := by
    rw [ha]
    have : (strstr (cstr "Lovers' Lane") (cstr "Lov")).isSome = true := by decide
    rw [this]
    exact Bool.or_true _
  have hany : xs.any (fun x =>
      (strstr x.title (cstr "Lov")).isSome || (strstr x.artist (cstr "Lov")).isSome) = true :=
    List.any_eq_true.mpr ⟨x1, h1, hb1⟩
  constructor
  · refine ⟨_, searchSong_songs (cstr "Lov") hs, ?_⟩
    simp only [List.drop_left, hne, if_false, hany, if_true, List.append_nil,
      List.mem_cons, List.mem_map, List.mem_filter, reduceCtorEq, false_or]
    refine ⟨Or.inr ⟨x1, ⟨h1, hb1⟩, rfl⟩, Or.inr ⟨x2, ⟨h2, hb2⟩, rfl⟩, ?_⟩
    rintro ⟨x, _, hx⟩
    exact absurd hx (by simp)
  · intro kw hkw
    have hLS : strstr (cstr "Love Story") kw = none := by
      rcases hkw with rfl | rfl <;> decide
    have hLL : strstr (cstr "Lovers' Lane") kw = none := by
      rcases hkw with rfl | rfl <;> decide
    refine ⟨hLS, hLL, ?_⟩
    have hfield : ∀ (f g : List Nat), strstr g kw = none →
        ((f = g ∨ ¬ kw <:+: f) ↔ (strstr f kw).isSome = false) := by
      intro f g hg
      constructor
      · rintro (rfl | hno)
        · rw [hg]
          rfl
        · cases hsome : (strstr f kw).isSome with
          | false => rfl
          | true => exact absurd ((strstr_isSome_iff f kw).mp hsome) hno
      · intro hfalse
        refine Or.inr (fun hin => ?_)
        rw [(strstr_isSome_iff f kw).mpr hin] at hfalse
        exact absurd hfalse (by simp)
    have hcond : (∀ x ∈ xs, (x.title = cstr "Love Story" ∨ ¬ kw <:+: x.title) ∧
          (x.artist = cstr "Lovers' Lane" ∨ ¬ kw <:+: x.artist)) ↔
        ∀ x ∈ xs, ((strstr x.title kw).isSome || (strstr x.artist kw).isSome) = false := by
      constructor
      · intro hall x hx
        rw [Bool.or_eq_false_iff]
        exact ⟨(hfield _ _ hLS).mp (hall x hx).1, (hfield _ _ hLL).mp (hall x hx).2⟩
      · intro hall x hx
        have := hall x hx
        rw [Bool.or_eq_false_iff] at this
        exact ⟨(hfield _ _ hLS).mpr this.1, (hfield _ _ hLL).mpr this.2⟩
    rw [hcond, searchSong_songs kw hs]
    simp only [hne, if_false]
    constructor
    · intro heq
      have hout := congrArg State.out (Option.some.inj heq)
      simp only at hout
      have hbody := List.append_cancel_left hout
      simp only [List.cons.injEq, true_and] at hbody
      by_cases hany2 : xs.any (fun x =>
          (strstr x.title kw).isSome || (strstr x.artist kw).isSome) = true
      · exfalso
        rw [if_pos hany2, List.append_nil] at hbody
        obtain ⟨y, hy, hyB⟩ := List.any_eq_true.mp hany2
        have hmem : Msg.searchHit y.title y.artist (y.duration.tdiv 60) (y.duration.tmod 60) ∈
            [Msg.noMatches] := by
          rw [← hbody]
          exact List.mem_map.mpr ⟨y, List.mem_filter.mpr ⟨hy, hyB⟩, rfl⟩
        simp at hmem
      · intro x hx
        cases hB : ((strstr x.title kw).isSome || (strstr x.artist kw).isSome) with
        | false => rfl
        | true => exact absurd (List.any_eq_true.mpr ⟨x, hx, hB⟩) hany2
    · intro hall
      have hfil : xs.filter (fun x =>
          (strstr x.title kw).isSome || (strstr x.artist kw).isSome) = [] := by
        rw [List.filter_eq_nil_iff]
        intro x hx
        rw [hall x hx]
        simp
      have hany2 : ¬ xs.any (fun x =>
          (strstr x.title kw).isSome || (strstr x.artist kw).isSome) = true := by
        intro hany2
        obtain ⟨y, hy, hyB⟩ := List.any_eq_true.mp hany2
        rw [hall y hy] at hyB
        exact absurd hyB (by simp)
      rw [hfil, if_neg hany2]
      rfl

/-- C5 (as amended), on the example playlist: the two songs of `loveSongs`, for which both
"lov" and "LOV" give no match; and the two songs ("Love Story", "Glover") and ("SLOVAK",
"Lovers' Lane"), where "lov" is found in the artist "Glover" and "LOV" in the title
"SLOVAK". -/
theorem searchSong_Lov_case_sensitive_witness :
    (songs demoLove = some loveSongs ∧
      (⟨cstr "Love Story", cstr "Taylor Swift", 235⟩ : SongData) ∈ loveSongs ∧
      (⟨cstr "Night Drive", cstr "Lovers' Lane", 180⟩ : SongData) ∈ loveSongs) ∧
    ((∃ st1, searchSong demoLove (cstr "Lov") = some st1 ∧
      hitMsg ⟨cstr "Love Story", cstr "Taylor Swift", 235⟩ ∈
        st1.out.drop demoLove.out.length ∧
      hitMsg ⟨cstr "Night Drive", cstr "Lovers' Lane", 180⟩ ∈
        st1.out.drop demoLove.out.length ∧
      Msg.noMatches ∉ st1.out.drop demoLove.out.length) ∧
    ∀ kw : List Nat, kw = cstr "lov" ∨ kw = cstr "LOV" →
      strstr (cstr "Love Story") kw = none ∧ strstr (cstr "Lovers' Lane") kw = none ∧
      (searchSong demoLove kw =
          some { demoLove with
            out := demoLove.out ++ [Msg.searchHeader kw, Msg.noMatches] } ↔
        ∀ x ∈ loveSongs, (x.title = cstr "Love Story" ∨ ¬ kw <:+: x.title) ∧
          (x.artist = cstr "Lovers' Lane" ∨ ¬ kw <:+: x.artist))) ∧
    searchSong demoLove (cstr "LOV") =
      some { demoLove with
        out := demoLove.out ++ [Msg.searchHeader (cstr "LOV"), Msg.noMatches] } ∧
    ((addAll demoInit [⟨cstr "Love Story", cstr "Glover", 1⟩,
        ⟨cstr "SLOVAK", cstr "Lovers' Lane", 2⟩]).bind
      (fun s => (searchSong s (cstr "lov")).map (fun s1 => s1.out.drop s.out.length))) =
      some [Msg.searchHeader (cstr "lov"), hitMsg ⟨cstr "Love Story", cstr "Glover", 1⟩] ∧
    ((addAll demoInit [⟨cstr "Love Story", cstr "Glover", 1⟩,
        ⟨cstr "SLOVAK", cstr "Lovers' Lane", 2⟩]).bind
      (fun s => (searchSong s (cstr "LOV")).map (fun s1 => s1.out.drop s.out.length))) =
      some [Msg.searchHeader (cstr "LOV"), hitMsg ⟨cstr "SLOVAK", cstr "Lovers' Lane", 2⟩] :=
  ⟨⟨by decide, by decide, by decide⟩,
    searchSong_Lov_case_sensitive demoLove loveSongs ⟨cstr "Love Story", cstr "Taylor Swift", 235⟩
      ⟨cstr "Night Drive", cstr "Lovers' Lane", 180⟩ (by decide) (by decide) rfl (by decide)
      rfl,
    by decide, by decide, by decide⟩

/-- C6 (as stated) fails on the empty playlist: no song has the title, yet `removeSong`
prints the empty-playlist error, not the not-found error. -/
theorem removeSong_empty_is_not_not_found :
    songs demoInit = some [] ∧
    (∀ x ∈ ([] : List SongData), ¬ FoldEq x.title (cstr "Song A")) ∧
    removeSong demoInit (cstr "Song A") =
      some { demoInit with out := demoInit.out ++ [Msg.errEmpty] } ∧
    removeSong demoInit (cstr "Song A") ≠
      some { demoInit with out := demoInit.out ++ [Msg.errNotFound (cstr "Song A")] } := by
  decide

/-- C6 (as amended), on an example: the title "Song C" in the playlist "Song A", "Song B". -/
theorem removeSong_not_found_witness :
    (songs demoAB = some [songA, songB] ∧ [songA, songB] ≠ [] ∧
      (∀ x ∈ [songA, songB], IsCStr x.title) ∧ IsCStr (cstr "Song C") ∧
      (∀ x ∈ [songA, songB], ¬ FoldEq x.title (cstr "Song C"))) ∧
    removeSong demoAB (cstr "Song C") =
      some { demoAB with out := demoAB.out ++ [Msg.errNotFound (cstr "Song C")] } :=
  ⟨⟨by decide, by decide, by decide, by decide, by decide⟩,
    removeSong_not_found demoAB (cstr "Song C") [songA, songB] (by decide) (by decide)
      (by decide) (by decide) (by decide)⟩

/-- C7, on an example: the freshly initialised playlist. -/
theorem removeSong_empty_witness :
    songs demoInit = some [] ∧
    (removeSong demoInit (cstr "Song A") =
        some { demoInit with out := demoInit.out ++ [Msg.errEmpty] } ∧
      songs { demoInit with out := demoInit.out ++ [Msg.errEmpty] } = some [] ∧
      ({ demoInit with out := demoInit.out ++ [Msg.errEmpty] } : State).pl.count =
        demoInit.pl.count) ∧
    demoInit.pl.count = 0 :=
  ⟨by decide, removeSong_empty demoInit (cstr "Song A") (by decide), by decide⟩

/-- C8, on an example: the state after `initPlaylist` and two `addSong` calls. -/
theorem count_is_number_of_songs_witness :
    Reachable demoAB ∧ ∃ xs, songs demoAB = some xs ∧ demoAB.pl.count = xs.length :=
  have hr : Reachable demoAB :=
    Reachable.add demoA demoAB songB.title songB.artist songB.duration
      (Reachable.add demoInit demoA songA.title songA.artist songA.duration
        (Reachable.init emptyState demoInit (cstr "My Favorites") (by decide)) (by decide))
      (by decide)
  ⟨hr, count_is_number_of_songs demoAB hr⟩

/-- C9, on the example of the specification: "Song A" of 200 seconds and "Song B" of 125
seconds give a total of 325 seconds, printed as 5 min 25 sec. -/
theorem displayPlaylist_total_witness :
    (songs demoAB = some [songA, songB] ∧ [songA, songB] ≠ []) ∧
    (∃ (st1 : State) (total : Int), displayPlaylist demoAB = some st1 ∧
      st1.heap = demoAB.heap ∧ st1.pl = demoAB.pl ∧
      st1.out = demoAB.out ++
        [Msg.displayHeader demoAB.pl.name demoAB.pl.count, Msg.columns, Msg.rule] ++
        [songA, songB].map (fun x =>
          Msg.row x.title x.artist (x.duration.tdiv 60) (x.duration.tmod 60)) ++
        [Msg.rule, Msg.total (total.tdiv 60) (total.tmod 60)] ∧
      total = wrap32 ([songA, songB].map (fun x => x.duration)).sum ∧
      (IsInt32 ([songA, songB].map (fun x => x.duration)).sum →
        total = ([songA, songB].map (fun x => x.duration)).sum)) ∧
    ([songA, songB].map (fun x => x.duration)).sum = 325 ∧
    (displayPlaylist demoAB).map (fun s => s.out.getLast?) = some (some (Msg.total 5 25)) :=
  ⟨⟨by decide, by decide⟩,
    displayPlaylist_total demoAB [songA, songB] (by decide) (by decide), by decide, by decide⟩

/-- C10, on an example: the playlist "Song A", "Song B" saved over a file that had other
content. -/
theorem savePlaylist_writes_lines_witness :
    (songs demoAB = some [songA, songB] ∧ oldFile.writable = true) ∧
    ((∃ st1 fs1, savePlaylist demoAB oldFile = some (st1, fs1) ∧ st1.heap = demoAB.heap ∧
        st1.pl = demoAB.pl ∧
        fs1.content = some (([songA, songB].map (fun x =>
          x.title ++ [124] ++ x.artist ++ [124] ++ fmtInt x.duration ++ [10])).flatten)) ∧
      ∀ d : Int, fmtInt d = (if d < 0 then [45] else []) ++
        (if d.natAbs = 0 then [48]
          else ((Nat.digits 10 d.natAbs).reverse.map (fun k => 48 + k)))) ∧
    (savePlaylist demoAB oldFile).map (fun r => r.2.content) =
      some (some (cstr "Song A|Artist X|200\nSong B|Artist Y|125\n")) :=
  ⟨⟨by decide, by decide⟩,
    savePlaylist_writes_lines demoAB oldFile [songA, songB] (by decide) (by decide),
    by decide⟩

/-! ## `freePlaylist` -/

theorem deref_free (heap : Heap) (a b : Nat) :
    deref (free heap a) b = if b = a then none else deref heap b := by
  unfold free
  by_cases hba : b = a
  · subst hba
    rw [if_pos rfl]
    unfold deref
    by_cases hlt : b < heap.length
    · simp [hlt]
    · rw [List.get?_eq_none.mpr (by simpa using hlt)]
      rfl
  · rw [if_neg hba]
    exact deref_set_ne heap none (fun h => hba h.symm)

theorem freeLoop_seg {l : List (Nat × Song)} :
    ∀ (heap : Heap) (p : Option Nat) (fuel : Nat), Seg heap p l none → l.length < fuel →
      ∃ heap1, freeLoop fuel heap p = some heap1 ∧ heap1.length = heap.length ∧
        ∀ a, deref heap1 a = if a ∈ l.map (fun c => c.1) then none else deref heap a := by
  induction l with
  | nil =>
    intro heap p fuel hseg hf
    rw [seg_nil] at hseg
    subst hseg
    cases fuel with
    | zero => simp at hf
    | succ fuel => exact ⟨heap, rfl, rfl, by simp⟩
  | cons c l ih =>
    intro heap p fuel hseg hf
    have hnd := seg_nodup hseg
    obtain ⟨hp, hd, hl⟩ := seg_cons.mp hseg
    subst hp
    simp only [List.map_cons, List.nodup_cons] at hnd
    cases fuel with
    | zero => simp at hf
    | succ fuel =>
      simp only [List.length_cons, Nat.add_lt_add_iff_right] at hf
      obtain ⟨heap1, hrun, hlen, hcells⟩ :=
        ih (free heap c.1) c.2.next fuel (seg_set c.1 none hl hnd.1) hf
      refine ⟨heap1, ?_, ?_, ?_⟩
      · simp only [freeLoop, hd, hrun]
      · rw [hlen]
        simp [free]
      · intro a
        rw [hcells a, deref_free]
        simp only [List.map_cons, List.mem_cons]
        by_cases h1 : a ∈ l.map (fun c => c.1)
        · simp [h1]
        · by_cases h2 : a = c.1 <;> simp [h1, h2]

/-- C11: on a playlist whose chain from `head` ends, `freePlaylist` returns; afterwards
`head` and `tail` are null, `count` is 0, there is no song, every cell of the former chain
is released, and a second `freePlaylist` returns the very same state. -/
theorem freePlaylist_empties_and_is_idempotent (st : State) (l : List (Nat × Song))
    (hs : cells st = some l) :
    ∃ st1, freePlaylist st = some st1 ∧ st1.pl.head = none ∧ st1.pl.tail = none ∧
      st1.pl.count = 0 ∧ songs st1 = some [] ∧ (∀ c ∈ l, deref st1.heap c.1 = none) ∧
      freePlaylist st1 = some st1 := by
  have hseg := cells_iff.mp hs
  obtain ⟨heap1, hrun, hlen, hcells⟩ := freeLoop_seg st.heap st.pl.head (st.heap.length + 1)
    hseg (Nat.lt_succ_of_le (seg_length_le hseg))
  have hfree : freePlaylist st = some ⟨heap1, ⟨st.pl.name, none, none, 0⟩, st.out⟩ := by
    simp only [freePlaylist, hrun]
  refine ⟨_, hfree, rfl, rfl, rfl, ?_, ?_, ?_⟩
  · exact songs_iff.mpr ⟨[], seg_nil.mpr rfl, rfl⟩
  · intro c hc
    show deref heap1 c.1 = none
    rw [hcells c.1, if_pos (List.mem_map.mpr ⟨c, hc, rfl⟩)]
  · simp only [freePlaylist, freeLoop]

/-! ## A file that does not open -/

/-- C12: when the save file is missing (or cannot be read), `loadPlaylist` returns the state
it was given with only the no-saved-playlist line added to the output, so a freshly
initialised playlist stays empty with `count` 0; when the file cannot be opened for
writing, `savePlaylist` returns the state it was given with only the error line added, and
the file as it was. -/
theorem unopened_file_leaves_playlist (st st0 : State) (fs : SaveFile) (garbage : Locals)
    (name : List Nat) :
    ((fs.content = none ∨ fs.readable = false) →
      loadPlaylist st fs garbage = some { st with out := st.out ++ [Msg.noSavedPlaylist] }) ∧
    ((fs.content = none ∨ fs.readable = false) → initPlaylist st0 name = some st →
      ∃ st1, loadPlaylist st fs garbage = some st1 ∧ songs st1 = some [] ∧ st1.pl.count = 0) ∧
    (fs.writable = false →
      savePlaylist st fs = some ({ st with out := st.out ++ [Msg.saveError] }, fs)) := by
  have hload : (fs.content = none ∨ fs.readable = false) →
      loadPlaylist st fs garbage = some { st with out := st.out ++ [Msg.noSavedPlaylist] } := by
    intro h
    unfold loadPlaylist
    cases hc : fs.content with
    | none => rfl
    | some bytes =>
      rcases h with h | h
      · rw [hc] at h
        exact absurd h (by simp)
      · simp [h]
  refine ⟨hload, ?_, ?_⟩
  · intro h hinit
    refine ⟨_, hload h, ?_, ?_⟩
    · exact (holds_songs (holds_congr rfl rfl (initPlaylist_holds hinit))).1
    · exact (initPlaylist_holds hinit).2.2
  · intro h
    simp [savePlaylist, h]

/-! ## `strCaseCmpr` -/

theorem foldEq_iff_pointwise (s t : List Nat) :
    FoldEq s t ↔ s.length = t.length ∧
      ∀ (i : Nat) (h1 : i < s.length) (h2 : i < t.length), tolower s[i] = tolower t[i] := by
  unfold FoldEq
  constructor
  · intro h
    have hlen : s.length = t.length := by
      have := congrArg List.length h
      simpa using this
    refine ⟨hlen, ?_⟩
    intro i h1 h2
    have h3 : (s.map tolower)[i]? = (t.map tolower)[i]? := by rw [h]
    simpa [List.getElem?_map, List.getElem?_eq_getElem h1, List.getElem?_eq_getElem h2] using h3
  · rintro ⟨hlen, hpt⟩
    apply List.ext_getElem
    · simpa using hlen
    · intro i h1 h2
      simp only [List.length_map] at h1 h2
      simp only [List.getElem_map]
      exact hpt i h1 h2

/-- C14: on C strings, `strCaseCmpr` returns 0 exactly when the two strings have the same
length and the same bytes after `tolower`, position by position; so it does not return 0
when one string is the other with something added at the end. -/
theorem strCaseCmpr_zero_iff_fold_equal (s t : List Nat) (hs : IsCStr s) (ht : IsCStr t) :
    (strCaseCmpr s t = 0 ↔ s.length = t.length ∧
      ∀ (i : Nat) (h1 : i < s.length) (h2 : i < t.length), tolower s[i] = tolower t[i]) ∧
    (∀ r : List Nat, r ≠ [] → t = s ++ r → strCaseCmpr s t ≠ 0 ∧ strCaseCmpr t s ≠ 0) := by
  refine ⟨(strCaseCmpr_eq_zero_iff hs ht).trans (foldEq_iff_pointwise s t), ?_⟩
  intro r hr htr
  have hlen : s.length ≠ t.length := by
    rw [htr, List.length_append]
    have : 0 < r.length := List.length_pos.mpr hr
    omega
  constructor
  · intro h0
    exact hlen (((strCaseCmpr_eq_zero_iff hs ht).trans (foldEq_iff_pointwise s t)).mp h0).1
  · intro h0
    exact hlen (((strCaseCmpr_eq_zero_iff ht hs).trans (foldEq_iff_pointwise t s)).mp h0).1.symm

/-! ## The reading functions change nothing -/

theorem displayPlaylist_returns {st : State} {xs : List SongData} (hs : songs st = some xs) :
    ∃ st1, displayPlaylist st = some st1 := by
  by_cases hne : xs = []
  · subst hne
    obtain ⟨l, hseg, hl⟩ := songs_iff.mp hs
    have hl2 : l = [] := by simpa using hl
    subst hl2
    have hhead := seg_nil.mp hseg
    exact ⟨{ st with out := st.out ++ [Msg.displayEmpty st.pl.name] },
      by simp only [displayPlaylist, hhead]⟩
  · exact ⟨_, displayPlaylist_songs hs hne⟩

/-- C15: on a playlist whose chain from `head` ends, `searchSong` and `displayPlaylist`
return, and the state they return differs from the one given in the output only: the heap
and the playlist record (name, `head`, `tail`, `count`) are the same, hence the songs, their
fields and their order. -/
theorem reads_change_nothing (st : State) (keyword : List Nat) (xs : List SongData)
    (hs : songs st = some xs) :
    ∃ st1 st2, searchSong st keyword = some st1 ∧ displayPlaylist st = some st2 ∧
      st1.heap = st.heap ∧ st1.pl = st.pl ∧ songs st1 = some xs ∧
      st2.heap = st.heap ∧ st2.pl = st.pl ∧ songs st2 = some xs := by
  obtain ⟨st2, hdisp⟩ := displayPlaylist_returns hs
  obtain ⟨h1, h2⟩ := displayPlaylist_frame hdisp
  refine ⟨_, st2, searchSong_songs keyword hs, hdisp, rfl, rfl, hs, h1, h2, ?_⟩
  unfold songs cells at hs ⊢
  rw [h1, h2]
  exact hs

/-! ## The two ends of the chain -/

theorem seg_head {heap : Heap} {l : List (Nat × Song)} {p : Option Nat}
    (h : Seg heap p l none) : p = (l.head?).map (fun c => c.1) := by
  cases l with
  | nil => exact seg_nil.mp h
  | cons c l => exact (seg_cons.mp h).1

theorem seg_next_none_iff {heap : Heap} {l : List (Nat × Song)} {p : Option Nat}
    (h : Seg heap p l none) :
    ∀ c ∈ l, (c.2.next = none ↔ (l.getLast?).map (fun d => d.1) = some c.1) := by
  induction l generalizing p with
  | nil => simp
  | cons c l ih =>
    have hnd := seg_nodup h
    obtain ⟨_, _, hl⟩ := seg_cons.mp h
    simp only [List.map_cons, List.nodup_cons] at hnd
    cases l with
    | nil =>
      intro d hd
      have hdc : d = c := by simpa using hd
      subst hdc
      simp [seg_nil.mp hl]
    | cons e l =>
      intro d hd
      rw [List.getLast?_cons_cons]
      rcases List.mem_cons.mp hd with rfl | hd
      · have hnext : d.2.next = some e.1 := (seg_cons.mp hl).1
        constructor
        · intro h0
          rw [hnext] at h0
          exact absurd h0 (by simp)
        · intro hlast
          exfalso
          apply hnd.1
          rw [Option.map_eq_some'] at hlast
          obtain ⟨x, hx, hxd⟩ := hlast
          exact List.mem_map.mpr ⟨x, List.mem_of_getLast?_eq_some hx, hxd⟩
      · exact ih hl d hd

theorem seg_cells_ext {heap heap2 : Heap} {l l2 : List (Nat × Song)} {p p2 : Option Nat}
    (h : Seg heap p l none) (h2 : Seg heap2 p2 l2 none)
    (haddr : l.map (fun c => c.1) = l2.map (fun c => c.1))
    (hdata : l.map (fun c => c.2.data) = l2.map (fun c => c.2.data)) : l = l2 := by
  induction l generalizing p p2 l2 with
  | nil =>
    cases l2 with
    | nil => rfl
    | cons d l2 => simp at haddr
  | cons c l ih =>
    cases l2 with
    | nil => simp at haddr
    | cons d l2 =>
      simp only [List.map_cons, List.cons.injEq] at haddr hdata
      obtain ⟨_, _, hl⟩ := seg_cons.mp h
      obtain ⟨_, _, hl2⟩ := seg_cons.mp h2
      have hrest := ih hl hl2 haddr.2 hdata.2
      subst hrest
      have hnext : c.2.next = d.2.next := by
        rw [seg_head hl, seg_head hl2]
      have hcd : c = d := by
        obtain ⟨ca, cs⟩ := c
        obtain ⟨da, ds⟩ := d
        obtain ⟨ct, car, cd, cn⟩ := cs
        obtain ⟨dt, dar, dd, dn⟩ := ds
        simp only [Song.data, SongData.mk.injEq] at hdata
        simp only at haddr hnext
        obtain ⟨⟨h1, h2, h3⟩, _⟩ := hdata
        rw [haddr.1, h1, h2, h3, hnext]
      rw [hcd]

theorem holds_of_songs {st : State} {l : List (Nat × Song)} {xs : List SongData}
    (h : Holds st l) (hs : songs st = some xs) : l.map (fun c => c.2.data) = xs := by
  have := (holds_songs h).1
  rw [hs] at this
  exact (Option.some.inj this).symm

/-- C17: in every state reached from `initPlaylist` by calls of the functions on the
playlist, `tail` is null exactly when `head` is null; otherwise `tail` is the address of the
last cell of the chain from `head`, which is the one cell of the chain whose `next` is null.
So an `addSong` with strings that fit, whatever was removed before, returns and puts the
new song after all the songs there were, none of which is lost. -/
theorem tail_is_last_cell (st : State) (h : Reachable st) :
    ∃ l, cells st = some l ∧ (st.pl.tail = none ↔ st.pl.head = none) ∧
      st.pl.tail = (l.getLast?).map (fun c => c.1) ∧
      (∀ c ∈ l, (c.2.next = none ↔ st.pl.tail = some c.1)) ∧
      ∀ (title artist : List Nat) (duration : Int), title.length < MAX_STR →
        artist.length < MAX_STR →
        ∃ st1, addSong st title artist duration = some st1 ∧
          songs st1 = some (l.map (fun c => c.2.data) ++ [⟨title, artist, duration⟩]) := by
  obtain ⟨l, hl⟩ := reachable_holds h
  obtain ⟨hseg, htail, hcount⟩ := hl
  refine ⟨l, cells_iff.mpr hseg, ?_, htail, ?_, ?_⟩
  · rw [htail, seg_head hseg]
    cases l with
    | nil => simp
    | cons c l => simp [List.getLast?_cons]
  · intro c hc
    rw [htail]
    exact seg_next_none_iff hseg c hc
  · intro title artist duration ht ha
    obtain ⟨st1, l1, hrun, hh, hdata, _⟩ :=
      addSong_holds title artist duration ⟨hseg, htail, hcount⟩ ht ha
    refine ⟨st1, hrun, ?_⟩
    rw [(holds_songs hh).1, List.map_append, hdata]
    rfl

theorem fgets_length (n : Nat) : ∀ (s : List Nat), (fgets n s).1.length ≤ n := by
  induction n with
  | zero =>
    intro s
    simp [fgets]
  | succ n ih =>
    intro s
    cases s with
    | nil => simp [fgets]
    | cons c s =>
      rw [fgets]
      split_ifs
      · simp
      · simp only [List.cons_eq_cons, List.length_cons]
        have := ih s
        omega

theorem ofBuffer_length (buf : List Nat) : (ofBuffer buf).length ≤ buf.length := by
  unfold ofBuffer
  exact (List.takeWhile_sublist _).length_le

theorem getLine_fits (buffer stdin : List Nat) (h : buffer.length < MAX_STR) :
    (getLine buffer MAX_STR stdin).1.length < MAX_STR := by
  have hlen := fgets_length (MAX_STR - 1) stdin
  unfold getLine
  split
  · exact h
  · next c buf rest heq =>
    rw [heq] at hlen
    have h2 := ofBuffer_length (c :: buf)
    have h3 : MAX_STR - 1 < MAX_STR := by decide
    simp only at hlen
    split_ifs
    · simp only [List.length_dropLast]
      omega
    · simp only
      omega

theorem getLine_line (buffer body rest : List Nat) (h : IsInputLine body) :
    getLine buffer MAX_STR (body ++ 10 :: rest) = (body, rest) := by
  obtain ⟨h10, h0, hlen⟩ := h
  have hn : body.length < MAX_STR - 1 := by
    have : MAX_STR = 100 := rfl
    omega
  have hf := fgets_line body rest h10 (MAX_STR - 1) hn
  have h0b : 0 ∉ body ++ [10] := by
    intro hmem
    rcases List.mem_append.mp hmem with hm | hm
    · exact h0 hm
    · simp at hm
  unfold getLine
  rw [hf]
  cases hbody : body ++ [10] with
  | nil => simp at hbody
  | cons c buf =>
    simp only
    rw [← hbody, ofBuffer_eq_self _ h0b]
    simp

/-- C18: the Add Song step takes an empty title with the artist "X" and the duration "5",
so the playlist with the single song ("", "X", 5) can be entered at the menu; `savePlaylist`
writes it as the line "|X|5"; and `loadPlaylist` of that file into a fresh playlist,
whatever its local variables hold, returns a playlist whose single song has the title "X"
and the artist "5", which is not the song saved. -/
theorem empty_title_is_not_read_back :
    (mainAddSong demoInit mainLocals0 (cstr "\nX\n5\n")).map (fun r => r.1) =
      some demoEmptyTitle ∧
    songs demoEmptyTitle = some [⟨[], cstr "X", 5⟩] ∧
    (savePlaylist demoEmptyTitle noFile).map (fun r => r.2.content) =
      some (some (cstr "|X|5\n")) ∧
    ∀ garbage : Locals,
      ((loadPlaylist demoInit ⟨some (cstr "|X|5\n"), true, true⟩ garbage).bind songs =
        some [⟨cstr "X", cstr "5", garbage.duration⟩]) ∧
      (loadPlaylist demoInit ⟨some (cstr "|X|5\n"), true, true⟩ garbage).bind songs ≠
        songs demoEmptyTitle := by
  refine ⟨by decide, by decide, by decide, ?_⟩
  intro garbage
  have hload : (loadPlaylist demoInit ⟨some (cstr "|X|5\n"), true, true⟩ garbage).bind songs =
      some [⟨cstr "X", cstr "5", garbage.duration⟩] := by
    rfl
  refine ⟨hload, ?_⟩
  rw [hload]
  have hs : songs demoEmptyTitle = some [⟨[], cstr "X", 5⟩] := by decide
  rw [hs]
  intro heq
  have h2 := Option.some.inj heq
  simp only [List.cons.injEq, SongData.mk.injEq, and_true] at h2
  exact absurd h2.1 (by decide)

/-! ## Lines with too few fields -/

theorem strtok_nil : strtok [] = (none, []) := rfl

theorem field_facts (s : List Nat) (h : IsField s) :
    s ≠ [] ∧ s.length < MAX_STR ∧ 124 ∉ s ∧ 10 ∉ s ∧ 0 ∉ s := by
  obtain ⟨hne, hlen, hstr, hbar, hnl⟩ := h
  refine ⟨hne, ?_, hbar, hnl, ?_⟩
  · unfold MAX_STR
    omega
  · intro h0
    exact absurd (hstr 0 h0).1 (by decide)

theorem fgets_append (n : Nat) : ∀ s : List Nat, (fgets n s).1 ++ (fgets n s).2 = s := by
  induction n with
  | zero =>
    intro s
    simp [fgets]
  | succ n ih =>
    intro s
    cases s with
    | nil => simp [fgets]
    | cons c s =>
      rw [fgets]
      split_ifs
      · simp
      · simp only [List.cons_append]
        rw [ih s]

theorem fgets_ne_nil (n : Nat) (s : List Nat) (h : s ≠ []) : (fgets (n + 1) s).1 ≠ [] := by
  cases s with
  | nil => exact absurd rfl h
  | cons c s =>
    rw [fgets]
    split_ifs <;> simp

theorem fgets_prefix (n : Nat) : ∀ (s t : List Nat),
    ((fgets n s).2 ≠ [] ∨ (fgets n s).1.getLast? = some 10) →
    fgets n (s ++ t) = ((fgets n s).1, (fgets n s).2 ++ t) := by
  induction n with
  | zero =>
    intro s t _
    simp [fgets]
  | succ n ih =>
    intro s t h
    cases s with
    | nil => simp [fgets] at h
    | cons c s =>
      rw [List.cons_append]
      rw [fgets] at h ⊢
      rw [fgets]
      by_cases hc : c = 10
      · simp [hc]
      · simp only [hc, if_false] at h ⊢
        have h2 : (fgets n s).2 ≠ [] ∨ (fgets n s).1.getLast? = some 10 := by
          rcases h with h | h
          · exact Or.inl h
          · right
            cases hL : (fgets n s).1 with
            | nil =>
              rw [hL] at h
              simp only [List.getLast?_singleton, Option.some.injEq] at h
              exact absurd h hc
            | cons d L =>
              rw [hL, List.getLast?_cons_cons] at h
              exact h
        rw [ih s t h2]

theorem fgets_eof (body : List Nat) (hnl : 10 ∉ body) :
    ∀ n, body.length ≤ n → fgets n body = (body, []) := by
  induction body with
  | nil =>
    intro n _
    cases n <;> rfl
  | cons c body ih =>
    intro n hn
    cases n with
    | zero => simp at hn
    | succ n =>
      have hc : c ≠ 10 := fun h => hnl (by simp [h])
      have hb : 10 ∉ body := fun h => hnl (List.mem_cons_of_mem c h)
      rw [fgets, if_neg hc, ih hb n (by simpa using hn)]

theorem chomp_eq_self (body : List Nat) (h : 10 ∉ body) : chomp body = body := by
  unfold chomp
  rw [List.takeWhile_eq_self_iff]
  intro x hx
  simp only [ne_eq, decide_not, Bool.not_eq_true', decide_eq_false_iff_not]
  rintro rfl
  exact h hx

theorem loadLoop_nil (fuel : Nat) (loc : Locals) (st : State) :
    loadLoop (fuel + 1) [] loc st = some st := by
  simp [loadLoop, fgets]

theorem loadLoop_fuel (f1 : Nat) :
    ∀ (f2 : Nat) (rest : List Nat) (loc : Locals) (st : State),
      rest.length < f1 → rest.length < f2 →
      loadLoop f1 rest loc st = loadLoop f2 rest loc st := by
  induction f1 with
  | zero =>
    intro f2 rest loc st h1
    simp at h1
  | succ a ih =>
    intro f2 rest loc st h1 h2
    cases f2 with
    | zero => simp at h2
    | succ b =>
      have happ := fgets_append 255 rest
      rw [loadLoop, loadLoop]
      cases hfg : fgets 255 rest with
      | mk chunk rest1 =>
        rw [hfg] at happ
        cases chunk with
        | nil => rfl
        | cons c buf =>
          simp only
          have hlen : rest1.length < rest.length := by
            rw [← happ]
            simp only [List.length_append, List.length_cons]
            omega
          cases parseLine (chomp (ofBuffer (c :: buf))) loc with
          | none => rfl
          | some loc1 =>
            simp only
            cases addSong st loc1.title loc1.artist loc1.duration with
            | none => rfl
            | some st1 =>
              simp only
              exact ih b rest1 loc1 st1 (by omega) (by omega)

theorem loadLoop_prefix (F : State → Option State) (rest : List Nat)
    (hF : ∀ (loc : Locals) (s : State), loadLoop (rest.length + 1) rest loc s = F s)
    (n : Nat) :
    ∀ (pre : List Nat) (loc : Locals) (st : State), pre.length ≤ n →
      (pre = [] ∨ pre.getLast? = some 10) →
      loadLoop ((pre ++ rest).length + 1) (pre ++ rest) loc st =
        (loadLoop (pre.length + 1) pre loc st).bind F := by
  induction n with
  | zero =>
    intro pre loc st hlen _
    have hnil : pre = [] := List.length_eq_zero.mp (by omega)
    subst hnil
    rw [loadLoop_nil, Option.some_bind, List.nil_append, hF]
  | succ n ih =>
    intro pre loc st hlen hpre
    cases pre with
    | nil => rw [loadLoop_nil, Option.some_bind, List.nil_append, hF]
    | cons p ps =>
      have hlast : (p :: ps).getLast? = some 10 := by
        rcases hpre with h | h
        · simp at h
        · exact h
      have happ := fgets_append 255 (p :: ps)
      have hne := fgets_ne_nil 254 (p :: ps) (by simp)
      have hpref := fgets_prefix 255 (p :: ps) rest
      cases hfg : fgets 255 (p :: ps) with
      | mk chunk pre1 =>
        rw [hfg] at happ hne hpref
        simp only at happ hne hpref
        obtain ⟨c, buf, rfl⟩ := List.exists_cons_of_ne_nil hne
        have hcond : pre1 ≠ [] ∨ (c :: buf).getLast? = some 10 := by
          by_cases h1 : pre1 = []
          · right
            rw [h1, List.append_nil] at happ
            rw [happ]
            exact hlast
          · exact Or.inl h1
        have hfg2 := hpref hcond
        have hpre1 : pre1 = [] ∨ pre1.getLast? = some 10 := by
          by_cases h1 : pre1 = []
          · exact Or.inl h1
          · right
            rw [← happ, List.getLast?_append_of_ne_nil _ h1] at hlast
            exact hlast
        have hlen1 : pre1.length < (p :: ps).length := by
          rw [← happ]
          simp only [List.length_append, List.length_cons]
          omega
        have hlen2 : (pre1 ++ rest).length < (p :: ps ++ rest).length := by
          simp only [List.length_append] at hlen1 ⊢
          omega
        rw [loadLoop, hfg2, loadLoop, hfg]
        simp only
        cases parseLine (chomp (ofBuffer (c :: buf))) loc with
        | none => rfl
        | some loc1 =>
          simp only
          cases addSong st loc1.title loc1.artist loc1.duration with
          | none => rfl
          | some st1 =>
            simp only
            rw [loadLoop_fuel _ ((pre1 ++ rest).length + 1) (pre1 ++ rest) loc1 st1 hlen2
              (by omega)]
            rw [loadLoop_fuel (p :: ps).length (pre1.length + 1) pre1 loc1 st1 hlen1 (by omega)]
            exact ih pre1 loc1 st1 (by omega) hpre1

theorem loadLoop_extends (fuel : Nat) :
    ∀ (rest : List Nat) (loc : Locals) (st st1 : State) (l : List (Nat × Song)),
      Holds st l → loadLoop fuel rest loc st = some st1 →
      ∃ l1 more, Holds st1 l1 ∧
        l1.map (fun c => c.2.data) = l.map (fun c => c.2.data) ++ more := by
  induction fuel with
  | zero =>
    intro rest loc st st1 l _ hrun
    simp [loadLoop] at hrun
  | succ fuel ih =>
    intro rest loc st st1 l h hrun
    unfold loadLoop at hrun
    split at hrun
    · cases Option.some.inj hrun
      exact ⟨l, [], h, by simp⟩
    · split at hrun
      · exact absurd hrun (by simp)
      · split at hrun
        · exact absurd hrun (by simp)
        · next st2 hadd =>
          have hfit := addSong_some_fits hadd
          obtain ⟨st3, l3, hrun3, hh, hdata, _⟩ := addSong_holds _ _ _ h hfit.1 hfit.2
          rw [hrun3] at hadd
          cases Option.some.inj hadd
          obtain ⟨l1, more, hl1, hmore⟩ := ih _ _ _ _ _ hh hrun
          rw [List.map_append, hdata, List.append_assoc] at hmore
          exact ⟨l1, _, hl1, hmore⟩

theorem loadLoop_short_line (body rest : List Nat) (loc loc1 : Locals) (st : State)
    (fuel : Nat) (h10 : 10 ∉ body) (h0 : 0 ∉ body) (hlen : body.length < 255)
    (hparse : parseLine body loc = some loc1) :
    loadLoop (fuel + 1) (body ++ 10 :: rest) loc st =
      (addSong st loc1.title loc1.artist loc1.duration).bind
        (fun st1 => loadLoop fuel rest loc1 st1) := by
  have hfg := fgets_line body rest h10 255 hlen
  obtain ⟨c, buf, hcb⟩ := List.exists_cons_of_ne_nil
    (show body ++ [10] ≠ [] by simp)
  have h00 : 0 ∉ body ++ [10] := by
    simp only [List.mem_append, List.mem_singleton, not_or]
    exact ⟨h0, by decide⟩
  rw [loadLoop, hfg, hcb]
  simp only
  rw [← hcb, ofBuffer_eq_self _ h00, chomp_line _ h10, hparse]
  simp only
  cases addSong st loc1.title loc1.artist loc1.duration <;> rfl

theorem loadLoop_line (body rest : List Nat) (loc loc1 : Locals) (st : State)
    (h10 : 10 ∉ body) (h0 : 0 ∉ body) (hlen : body.length < 255)
    (hparse : parseLine body loc = some loc1) :
    loadLoop ((body ++ 10 :: rest).length + 1) (body ++ 10 :: rest) loc st =
      (addSong st loc1.title loc1.artist loc1.duration).bind
        (fun st1 => loadLoop (rest.length + 1) rest loc1 st1) := by
  rw [loadLoop_short_line body rest loc loc1 st _ h10 h0 hlen hparse]
  cases addSong st loc1.title loc1.artist loc1.duration with
  | none => rfl
  | some st1 =>
    simp only [Option.some_bind]
    exact loadLoop_fuel _ _ rest loc1 st1 (by simp; omega) (by omega)

theorem loadLoop_last_line (body : List Nat) (loc loc1 : Locals) (st : State)
    (hne : body ≠ []) (h10 : 10 ∉ body) (h0 : 0 ∉ body) (hlen : body.length ≤ 255)
    (hparse : parseLine body loc = some loc1) :
    loadLoop (body.length + 1) body loc st =
      addSong st loc1.title loc1.artist loc1.duration := by
  have hfg := fgets_eof body h10 255 hlen
  obtain ⟨c, buf, hcb⟩ := List.exists_cons_of_ne_nil hne
  rw [loadLoop, hfg, hcb]
  simp only
  rw [← hcb, ofBuffer_eq_self _ h0, chomp_eq_self _ h10, hparse]
  simp only
  cases addSong st loc1.title loc1.artist loc1.duration with
  | none => rfl
  | some st1 =>
    simp only
    rw [hcb]
    exact loadLoop_nil _ loc1 st1

theorem parseLine_three_fields (t a d : List Nat) (loc : Locals) (ht : IsField t)
    (ha : IsField a) (hd : IsField d) :
    parseLine (t ++ [124] ++ a ++ [124] ++ d) loc =
      some { title := t, artist := a, duration := atoi d } := by
  obtain ⟨htne, htfit, htbar, _, _⟩ := field_facts t ht
  obtain ⟨hane, hafit, habar, _, _⟩ := field_facts a ha
  obtain ⟨hdne, _, hdbar, _, _⟩ := field_facts d hd
  have h1 : t ++ [124] ++ a ++ [124] ++ d = t ++ 124 :: (a ++ 124 :: d) := by simp
  simp only [parseLine, h1, strtok_token _ _ htne htbar, strtok_token _ _ hane habar,
    strtok_last _ hdne hdbar, strcpy, htfit, hafit, if_true]

theorem parseLine_two_fields (t a : List Nat) (loc : Locals) (ht : IsField t)
    (ha : IsField a) :
    parseLine (t ++ [124] ++ a) loc = some { title := t, artist := a, duration := loc.duration } := by
  obtain ⟨htne, htfit, htbar, _, _⟩ := field_facts t ht
  obtain ⟨hane, hafit, habar, _, _⟩ := field_facts a ha
  have h1 : t ++ [124] ++ a = t ++ 124 :: a := by simp
  simp only [parseLine, h1, strtok_token _ _ htne htbar, strtok_last _ hane habar, strtok_nil,
    strcpy, htfit, hafit, if_true]

theorem parseLine_one_field (t : List Nat) (loc : Locals) (ht : IsField t) :
    parseLine t loc = some { title := t, artist := loc.artist, duration := loc.duration } := by
  obtain ⟨htne, htfit, htbar, _, _⟩ := field_facts t ht
  simp only [parseLine, strtok_last _ htne htbar, strtok_nil, strcpy, htfit, if_true]

theorem loadPlaylist_bytes (st : State) (bytes : List Nat) (w : Bool) (garbage : Locals) :
    loadPlaylist st ⟨some bytes, true, w⟩ garbage =
      (loadLoop (bytes.length + 1) bytes garbage st).map
        (fun s => { s with out := s.out ++ [Msg.cleared, Msg.loaded s.pl.count] }) := by
  simp only [loadPlaylist, if_true]
  cases loadLoop (bytes.length + 1) bytes garbage st <;> rfl

/-- C13: take any file in which a line `t1|a1|d1` with three fields that fit starts at the
beginning of a line and is followed at once by the short line `t2|a2`, or by the short line
`t2`; the short line ends with a newline and any text `post`, or it ends the file. Whatever
stands before and after, in every state and with whatever the local variables hold,
`loadPlaylist` runs its loop over the part before, appends the song `(t1, a1, atoi d1)`,
then appends the song of the short line, which is `(t2, a2, atoi d1)` for `t2|a2` and
`(t2, a1, atoi d1)` for `t2`, and goes on with `post`, its local variables still holding the
fields of that song. So in a state the program can be in, when the part before is read
with the songs `zs` as the result, the file that ends with the short line is read with the
result `zs`, the song of the first line, the song with the left-over fields; and every result
for a longer file starts with these songs. -/
theorem short_line_keeps_stale_fields (pre t1 a1 d1 t2 a2 short : List Nat)
    (stale : SongData) (hpre : pre = [] ∨ pre.getLast? = some 10)
    (ht1 : IsField t1) (ha1 : IsField a1) (hd1 : IsField d1)
    (hlen : (t1 ++ [124] ++ a1 ++ [124] ++ d1).length < 255)
    (ht2 : IsField t2) (ha2 : IsField a2)
    (hshort : (short = t2 ++ [124] ++ a2 ∧ stale = ⟨t2, a2, atoi d1⟩) ∨
      (short = t2 ∧ stale = ⟨t2, a1, atoi d1⟩)) :
    ∀ (st : State) (garbage : Locals) (w : Bool),
      (∀ post : List Nat,
        loadPlaylist st
            ⟨some (pre ++ (t1 ++ [124] ++ a1 ++ [124] ++ d1 ++ [10]) ++ (short ++ [10]) ++ post),
              true, w⟩ garbage =
          (loadLoop (pre.length + 1) pre garbage st).bind (fun s0 =>
            (addSong s0 t1 a1 (atoi d1)).bind (fun s1 =>
              (addSong s1 stale.title stale.artist stale.duration).bind (fun s2 =>
                (loadLoop (post.length + 1) post ⟨stale.title, stale.artist, stale.duration⟩
                  s2).map
                  (fun s => { s with out := s.out ++ [Msg.cleared, Msg.loaded s.pl.count] }))))) ∧
      (loadPlaylist st
          ⟨some (pre ++ (t1 ++ [124] ++ a1 ++ [124] ++ d1 ++ [10]) ++ short), true, w⟩ garbage =
        (loadLoop (pre.length + 1) pre garbage st).bind (fun s0 =>
          (addSong s0 t1 a1 (atoi d1)).bind (fun s1 =>
            (addSong s1 stale.title stale.artist stale.duration).map
              (fun s => { s with out := s.out ++ [Msg.cleared, Msg.loaded s.pl.count] })))) ∧
      ∀ (stp : State) (zs : List SongData), Reachable st →
        loadPlaylist st ⟨some pre, true, w⟩ garbage = some stp → songs stp = some zs →
        (∃ st1, loadPlaylist st
            ⟨some (pre ++ (t1 ++ [124] ++ a1 ++ [124] ++ d1 ++ [10]) ++ short), true, w⟩
            garbage = some st1 ∧
          songs st1 = some (zs ++ [⟨t1, a1, atoi d1⟩, stale])) ∧
        (∃ st1, loadPlaylist st
            ⟨some (pre ++ (t1 ++ [124] ++ a1 ++ [124] ++ d1 ++ [10]) ++ (short ++ [10])),
              true, w⟩ garbage = some st1 ∧
          songs st1 = some (zs ++ [⟨t1, a1, atoi d1⟩, stale])) ∧
        ∀ (post : List Nat) (st1 : State),
          loadPlaylist st
            ⟨some (pre ++ (t1 ++ [124] ++ a1 ++ [124] ++ d1 ++ [10]) ++ (short ++ [10]) ++ post),
              true, w⟩ garbage = some st1 →
          ∃ more, songs st1 = some (zs ++ [⟨t1, a1, atoi d1⟩, stale] ++ more) := by
  obtain ⟨ht1ne, ht1fit, ht1bar, ht1nl, ht10⟩ := field_facts t1 ht1
  obtain ⟨ha1ne, ha1fit, ha1bar, ha1nl, ha10⟩ := field_facts a1 ha1
  obtain ⟨hd1ne, hd1fit, hd1bar, hd1nl, hd10⟩ := field_facts d1 hd1
  obtain ⟨ht2ne, ht2fit, ht2bar, ht2nl, ht20⟩ := field_facts t2 ht2
  obtain ⟨ha2ne, ha2fit, ha2bar, ha2nl, ha20⟩ := field_facts a2 ha2
  have hl10 : 10 ∉ t1 ++ [124] ++ a1 ++ [124] ++ d1 := by
    simp only [List.mem_append, List.mem_singleton, not_or]
    exact ⟨⟨⟨⟨ht1nl, by decide⟩, ha1nl⟩, by decide⟩, hd1nl⟩
  have hl0 : 0 ∉ t1 ++ [124] ++ a1 ++ [124] ++ d1 := by
    simp only [List.mem_append, List.mem_singleton, not_or]
    exact ⟨⟨⟨⟨ht10, by decide⟩, ha10⟩, by decide⟩, hd10⟩
  have hparse1 : ∀ loc : Locals, parseLine (t1 ++ [124] ++ a1 ++ [124] ++ d1) loc =
      some ⟨t1, a1, atoi d1⟩ := fun loc => parseLine_three_fields t1 a1 d1 loc ht1 ha1 hd1
  have hs : short ≠ [] ∧ 10 ∉ short ∧ 0 ∉ short ∧ short.length < 255 ∧
      parseLine short ⟨t1, a1, atoi d1⟩ = some ⟨stale.title, stale.artist, stale.duration⟩ ∧
      stale.title.length < MAX_STR ∧ stale.artist.length < MAX_STR := by
    rcases hshort with ⟨h1, h2⟩ | ⟨h1, h2⟩
    · rw [h1, h2]
      refine ⟨by simp [ht2ne], ?_, ?_, ?_, parseLine_two_fields t2 a2 _ ht2 ha2, ht2fit, ha2fit⟩
      · simp only [List.mem_append, List.mem_singleton, not_or]
        exact ⟨⟨ht2nl, by decide⟩, ha2nl⟩
      · simp only [List.mem_append, List.mem_singleton, not_or]
        exact ⟨⟨ht20, by decide⟩, ha20⟩
      · simp only [List.length_append, List.length_singleton]
        have := ht2.2.1
        have := ha2.2.1
        omega
    · rw [h1, h2]
      refine ⟨ht2ne, ht2nl, ht20, ?_, parseLine_one_field t2 _ ht2, ht2fit, ha1fit⟩
      have := ht2.2.1
      omega
  obtain ⟨hsne, hs10, hs0, hslen, hparse2, hsfit1, hsfit2⟩ := hs
  have hfile : ∀ post : List Nat,
      pre ++ (t1 ++ [124] ++ a1 ++ [124] ++ d1 ++ [10]) ++ (short ++ [10]) ++ post =
        pre ++ ((t1 ++ [124] ++ a1 ++ [124] ++ d1) ++ 10 :: (short ++ 10 :: post)) := by
    intro post
    simp only [List.append_assoc, List.cons_append, List.nil_append]
  have hfileE : pre ++ (t1 ++ [124] ++ a1 ++ [124] ++ d1 ++ [10]) ++ short =
      pre ++ ((t1 ++ [124] ++ a1 ++ [124] ++ d1) ++ 10 :: short) := by
    simp only [List.append_assoc, List.cons_append, List.nil_append]
  have hfileN : pre ++ (t1 ++ [124] ++ a1 ++ [124] ++ d1 ++ [10]) ++ (short ++ [10]) =
      pre ++ (t1 ++ [124] ++ a1 ++ [124] ++ d1 ++ [10]) ++ (short ++ [10]) ++ [] := by
    rw [List.append_nil]
  have hloop : ∀ (post : List Nat) (loc : Locals) (s : State),
      loadLoop (((t1 ++ [124] ++ a1 ++ [124] ++ d1) ++ 10 :: (short ++ 10 :: post)).length + 1)
          ((t1 ++ [124] ++ a1 ++ [124] ++ d1) ++ 10 :: (short ++ 10 :: post)) loc s =
        (addSong s t1 a1 (atoi d1)).bind (fun s1 =>
          (addSong s1 stale.title stale.artist stale.duration).bind (fun s2 =>
            loadLoop (post.length + 1) post ⟨stale.title, stale.artist, stale.duration⟩
              s2)) := by
    intro post loc s
    rw [loadLoop_line _ _ loc ⟨t1, a1, atoi d1⟩ s hl10 hl0 hlen (hparse1 loc)]
    cases addSong s t1 a1 (atoi d1) with
    | none => rfl
    | some s1 =>
      simp only [Option.some_bind]
      rw [loadLoop_line short post _ _ s1 hs10 hs0 hslen hparse2]
  have hloopE : ∀ (loc : Locals) (s : State),
      loadLoop (((t1 ++ [124] ++ a1 ++ [124] ++ d1) ++ 10 :: short).length + 1)
          ((t1 ++ [124] ++ a1 ++ [124] ++ d1) ++ 10 :: short) loc s =
        (addSong s t1 a1 (atoi d1)).bind (fun s1 =>
          addSong s1 stale.title stale.artist stale.duration) := by
    intro loc s
    rw [loadLoop_line _ _ loc ⟨t1, a1, atoi d1⟩ s hl10 hl0 hlen (hparse1 loc)]
    cases addSong s t1 a1 (atoi d1) with
    | none => rfl
    | some s1 =>
      simp only [Option.some_bind]
      rw [loadLoop_last_line short _ _ s1 hsne hs10 hs0 (by omega) hparse2]
  intro st garbage w
  have heq : ∀ post : List Nat,
      loadPlaylist st
          ⟨some (pre ++ (t1 ++ [124] ++ a1 ++ [124] ++ d1 ++ [10]) ++ (short ++ [10]) ++ post),
            true, w⟩ garbage =
        (loadLoop (pre.length + 1) pre garbage st).bind (fun s0 =>
          (addSong s0 t1 a1 (atoi d1)).bind (fun s1 =>
            (addSong s1 stale.title stale.artist stale.duration).bind (fun s2 =>
              (loadLoop (post.length + 1) post ⟨stale.title, stale.artist, stale.duration⟩
                s2).map
                (fun s => { s with out := s.out ++ [Msg.cleared, Msg.loaded s.pl.count] })))) := by
    intro post
    rw [hfile post, loadPlaylist_bytes,
      loadLoop_prefix _ _ (hloop post) pre.length pre garbage st (le_refl _) hpre]
    cases loadLoop (pre.length + 1) pre garbage st with
    | none => rfl
    | some s0 =>
      simp only [Option.some_bind]
      cases addSong s0 t1 a1 (atoi d1) with
      | none => rfl
      | some s1 =>
        simp only [Option.some_bind]
        cases addSong s1 stale.title stale.artist stale.duration with
        | none => rfl
        | some s2 => rfl
  have heqE : loadPlaylist st
        ⟨some (pre ++ (t1 ++ [124] ++ a1 ++ [124] ++ d1 ++ [10]) ++ short), true, w⟩ garbage =
      (loadLoop (pre.length + 1) pre garbage st).bind (fun s0 =>
        (addSong s0 t1 a1 (atoi d1)).bind (fun s1 =>
          (addSong s1 stale.title stale.artist stale.duration).map
            (fun s => { s with out := s.out ++ [Msg.cleared, Msg.loaded s.pl.count] }))) := by
    rw [hfileE, loadPlaylist_bytes,
      loadLoop_prefix _ _ hloopE pre.length pre garbage st (le_refl _) hpre]
    cases loadLoop (pre.length + 1) pre garbage st with
    | none => rfl
    | some s0 =>
      simp only [Option.some_bind]
      cases addSong s0 t1 a1 (atoi d1) with
      | none => rfl
      | some s1 => rfl
  refine ⟨heq, heqE, ?_⟩
  intro stp zs hreach hload hzs
  obtain ⟨l, hl⟩ := reachable_holds hreach
  rw [loadPlaylist_bytes] at hload
  cases hX : loadLoop (pre.length + 1) pre garbage st with
  | none =>
    rw [hX] at hload
    exact absurd hload (by simp)
  | some s0 =>
    rw [hX] at hload
    have hstp : stp = { s0 with out := s0.out ++ [Msg.cleared, Msg.loaded s0.pl.count] } :=
      (Option.some.inj hload).symm
    obtain ⟨l0, hh0⟩ := loadLoop_preserves _ _ _ _ _ _ hl hX
    have hzs0 : songs s0 = some zs := by
      rw [← hzs, hstp]
      rfl
    have hdata0 := holds_of_songs hh0 hzs0
    obtain ⟨s1, l1, hrun1, hh1, hdata1, _⟩ := addSong_holds t1 a1 (atoi d1) hh0 ht1fit ha1fit
    obtain ⟨s2, l2, hrun2, hh2, hdata2, _⟩ :=
      addSong_holds stale.title stale.artist stale.duration hh1 hsfit1 hsfit2
    have hsongs2 : songs s2 = some (zs ++ [⟨t1, a1, atoi d1⟩, stale]) := by
      rw [(holds_songs hh2).1, List.map_append, hdata2, List.map_append, hdata1, hdata0]
      simp [Song.data]
    refine ⟨?_, ?_, ?_⟩
    · refine ⟨{ s2 with out := s2.out ++ [Msg.cleared, Msg.loaded s2.pl.count] }, ?_, hsongs2⟩
      rw [heqE, hX, Option.some_bind, hrun1, Option.some_bind, hrun2]
      rfl
    · refine ⟨{ s2 with out := s2.out ++ [Msg.cleared, Msg.loaded s2.pl.count] }, ?_, hsongs2⟩
      rw [hfileN, heq [], hX, Option.some_bind, hrun1, Option.some_bind, hrun2,
        Option.some_bind, List.length_nil, loadLoop_nil]
      rfl
    · intro post st1 hrun
      rw [heq post, hX, Option.some_bind, hrun1, Option.some_bind, hrun2,
        Option.some_bind] at hrun
      cases hY : loadLoop (post.length + 1) post
          ⟨stale.title, stale.artist, stale.duration⟩ s2 with
      | none =>
        rw [hY] at hrun
        exact absurd hrun (by simp)
      | some s3 =>
        rw [hY] at hrun
        have hst1 : st1 = { s3 with out := s3.out ++ [Msg.cleared, Msg.loaded s3.pl.count] } :=
          (Option.some.inj hrun).symm
        obtain ⟨l3, more, hl3, hmore⟩ := loadLoop_extends _ _ _ _ _ _ hh2 hY
        refine ⟨more, ?_⟩
        have hsongs3 := (holds_songs hl3).1
        rw [hmore, Option.some.inj ((holds_songs hh2).1.symm.trans hsongs2)] at hsongs3
        rw [hst1]
        exact hsongs3

/-- C13, on examples: in the file "Z|W", "Song A|Artist X|200", "Song B|Artist Y", whose
first line is short itself and whose last line has no newline, loaded into the freshly
initialised playlist with 7 left in `duration`, the song of the last line is ("Song B",
"Artist Y", 200); with the last line "Song B" it is ("Song B", "Artist X", 200); and a
well-formed line after the short line is read as usual. -/
theorem short_line_keeps_stale_fields_witness :
    ((cstr "Z|W\n" = [] ∨ (cstr "Z|W\n").getLast? = some 10) ∧ IsField (cstr "Song A") ∧
      IsField (cstr "Artist X") ∧ IsField (cstr "200") ∧
      (cstr "Song A" ++ [124] ++ cstr "Artist X" ++ [124] ++ cstr "200").length < 255 ∧
      IsField (cstr "Song B") ∧ IsField (cstr "Artist Y") ∧
      ((cstr "Song B|Artist Y" = cstr "Song B" ++ [124] ++ cstr "Artist Y" ∧
          (⟨cstr "Song B", cstr "Artist Y", 200⟩ : SongData) =
            ⟨cstr "Song B", cstr "Artist Y", atoi (cstr "200")⟩) ∨
        (cstr "Song B|Artist Y" = cstr "Song B" ∧
          (⟨cstr "Song B", cstr "Artist Y", 200⟩ : SongData) =
            ⟨cstr "Song B", cstr "Artist X", atoi (cstr "200")⟩)) ∧
      Reachable demoInit ∧
      loadPlaylist demoInit ⟨some (cstr "Z|W\n"), true, true⟩ ⟨[], [], 7⟩ =
        some demoShortFirst ∧
      songs demoShortFirst = some [⟨cstr "Z", cstr "W", 7⟩]) ∧
    ((∃ st1, loadPlaylist demoInit
          ⟨some (cstr "Z|W\n" ++
            (cstr "Song A" ++ [124] ++ cstr "Artist X" ++ [124] ++ cstr "200" ++ [10]) ++
            cstr "Song B|Artist Y"), true, true⟩ ⟨[], [], 7⟩ = some st1 ∧
        songs st1 = some ([⟨cstr "Z", cstr "W", 7⟩] ++
          [⟨cstr "Song A", cstr "Artist X", atoi (cstr "200")⟩,
            ⟨cstr "Song B", cstr "Artist Y", 200⟩])) ∧
      (∃ st1, loadPlaylist demoInit
          ⟨some (cstr "Z|W\n" ++
            (cstr "Song A" ++ [124] ++ cstr "Artist X" ++ [124] ++ cstr "200" ++ [10]) ++
            (cstr "Song B|Artist Y" ++ [10])), true, true⟩ ⟨[], [], 7⟩ = some st1 ∧
        songs st1 = some ([⟨cstr "Z", cstr "W", 7⟩] ++
          [⟨cstr "Song A", cstr "Artist X", atoi (cstr "200")⟩,
            ⟨cstr "Song B", cstr "Artist Y", 200⟩])) ∧
      ∀ (post : List Nat) (st1 : State),
        loadPlaylist demoInit
          ⟨some (cstr "Z|W\n" ++
            (cstr "Song A" ++ [124] ++ cstr "Artist X" ++ [124] ++ cstr "200" ++ [10]) ++
            (cstr "Song B|Artist Y" ++ [10]) ++ post), true, true⟩ ⟨[], [], 7⟩ = some st1 →
        ∃ more, songs st1 = some ([⟨cstr "Z", cstr "W", 7⟩] ++
          [⟨cstr "Song A", cstr "Artist X", atoi (cstr "200")⟩,
            ⟨cstr "Song B", cstr "Artist Y", 200⟩] ++ more)) ∧
    (loadPlaylist demoInit ⟨some (cstr "Z|W\nSong A|Artist X|200\nSong B|Artist Y"), true, true⟩
      ⟨[], [], 7⟩).bind songs =
      some [⟨cstr "Z", cstr "W", 7⟩, songA, ⟨cstr "Song B", cstr "Artist Y", 200⟩] ∧
    (loadPlaylist demoInit ⟨some (cstr "Z|W\nSong A|Artist X|200\nSong B"), true, true⟩
      ⟨[], [], 7⟩).bind songs =
      some [⟨cstr "Z", cstr "W", 7⟩, songA, ⟨cstr "Song B", cstr "Artist X", 200⟩] ∧
    (loadPlaylist demoInit ⟨some (cstr "Song A|Artist X|200\nSong B|Artist Y\n"), true, true⟩
      ⟨[], [], 0⟩).bind songs =
      some [songA, ⟨cstr "Song B", cstr "Artist Y", 200⟩] ∧
    (loadPlaylist demoInit ⟨some (cstr "Song A|Artist X|200\nSong B\nSong C|Artist Z|90\n"),
      true, true⟩ ⟨[], [], 0⟩).bind songs =
      some [songA, ⟨cstr "Song B", cstr "Artist X", 200⟩, ⟨cstr "Song C", cstr "Artist Z", 90⟩] :=
  ⟨⟨by decide, by decide, by decide, by decide, by decide, by decide, by decide, by decide,
      Reachable.init emptyState demoInit (cstr "My Favorites") (by decide), by decide,
      by decide⟩,
    (short_line_keeps_stale_fields (cstr "Z|W\n") (cstr "Song A") (cstr "Artist X") (cstr "200")
      (cstr "Song B") (cstr "Artist Y") (cstr "Song B|Artist Y")
      ⟨cstr "Song B", cstr "Artist Y", 200⟩ (by decide) (by decide) (by decide) (by decide)
      (by decide) (by decide) (by decide) (by decide) demoInit ⟨[], [], 7⟩ true).2.2
      demoShortFirst [⟨cstr "Z", cstr "W", 7⟩]
      (Reachable.init emptyState demoInit (cstr "My Favorites") (by decide)) (by decide)
      (by decide),
    by decide, by decide, by decide, by decide⟩

/-! ## A field too long for its buffer -/

/-- C20 fails on a line of 100 letters: the line is shorter than 256 bytes, yet its single
field and the terminating NUL do not fit the 100 bytes of `title`, so the `strcpy` of the
token is undefined and `loadPlaylist` has no result, whatever the local variables hold. -/
theorem loadPlaylist_long_field_overflows :
    longLineFile.content = some (List.replicate 100 97 ++ [10]) ∧
    (List.replicate 100 97 ++ [10]).length < 256 ∧
    strcpy (List.replicate 100 97) = none ∧
    ∀ garbage : Locals, loadPlaylist demoInit longLineFile garbage = none := by
  refine ⟨rfl, by decide, by decide, ?_⟩
  intro garbage
  rfl

/-! ## Further examples -/

/-- C11, on an example: the playlist "Song A", "Song B", whose two cells are at the
addresses 0 and 1. -/
theorem freePlaylist_empties_and_is_idempotent_witness :
    cells demoAB = some [(0, ⟨songA.title, songA.artist, 200, some 1⟩),
      (1, ⟨songB.title, songB.artist, 125, none⟩)] ∧
    (∃ st1, freePlaylist demoAB = some st1 ∧ st1.pl.head = none ∧ st1.pl.tail = none ∧
      st1.pl.count = 0 ∧ songs st1 = some [] ∧
      (∀ c ∈ [((0 : Nat), (⟨songA.title, songA.artist, 200, some 1⟩ : Song)),
          (1, ⟨songB.title, songB.artist, 125, none⟩)], deref st1.heap c.1 = none) ∧
      freePlaylist st1 = some st1) ∧
    (freePlaylist demoAB).map (fun s => (s.heap, s.pl)) =
      some ([none, none], ⟨cstr "My Favorites", none, none, 0⟩) :=
  ⟨by decide,
    freePlaylist_empties_and_is_idempotent demoAB
      [(0, ⟨songA.title, songA.artist, 200, some 1⟩), (1, ⟨songB.title, songB.artist, 125, none⟩)]
      (by decide),
    by decide⟩

/-- C12, on an example: loading a missing file into the freshly initialised playlist, and
saving the playlist "Song A", "Song B" to a file that cannot be written. -/
theorem unopened_file_leaves_playlist_witness :
    (noFile.content = none ∧ initPlaylist emptyState (cstr "My Favorites") = some demoInit ∧
      (⟨some (cstr "old"), true, false⟩ : SaveFile).writable = false) ∧
    loadPlaylist demoInit noFile ⟨[], [], 0⟩ =
      some { demoInit with out := demoInit.out ++ [Msg.noSavedPlaylist] } ∧
    (∃ st1, loadPlaylist demoInit noFile ⟨[], [], 0⟩ = some st1 ∧ songs st1 = some [] ∧
      st1.pl.count = 0) ∧
    savePlaylist demoAB ⟨some (cstr "old"), true, false⟩ =
      some ({ demoAB with out := demoAB.out ++ [Msg.saveError] },
        ⟨some (cstr "old"), true, false⟩) :=
  ⟨⟨by decide, by decide, by decide⟩,
    (unopened_file_leaves_playlist demoInit emptyState noFile ⟨[], [], 0⟩
      (cstr "My Favorites")).1 (Or.inl (by decide)),
    (unopened_file_leaves_playlist demoInit emptyState noFile ⟨[], [], 0⟩
      (cstr "My Favorites")).2.1 (Or.inl (by decide)) (by decide),
    (unopened_file_leaves_playlist demoAB emptyState ⟨some (cstr "old"), true, false⟩
      ⟨[], [], 0⟩ (cstr "My Favorites")).2.2 (by decide)⟩

/-- C14, on examples: "Yesterday" against "yesterday" gives 0, and "Song" against
"Song A" does not, in either order. -/
theorem strCaseCmpr_zero_iff_fold_equal_witness :
    (IsCStr (cstr "Song") ∧ IsCStr (cstr "Song A")) ∧
    ((strCaseCmpr (cstr "Song") (cstr "Song A") = 0 ↔
        (cstr "Song").length = (cstr "Song A").length ∧
        ∀ (i : Nat) (h1 : i < (cstr "Song").length) (h2 : i < (cstr "Song A").length),
          tolower (cstr "Song")[i] = tolower (cstr "Song A")[i]) ∧
      (∀ r : List Nat, r ≠ [] → cstr "Song A" = cstr "Song" ++ r →
        strCaseCmpr (cstr "Song") (cstr "Song A") ≠ 0 ∧
        strCaseCmpr (cstr "Song A") (cstr "Song") ≠ 0)) ∧
    strCaseCmpr (cstr "Yesterday") (cstr "yesterday") = 0 ∧
    strCaseCmpr (cstr "Song") (cstr "Song A") ≠ 0 ∧
    strCaseCmpr (cstr "Song A") (cstr "Song") ≠ 0 :=
  ⟨⟨by decide, by decide⟩,
    strCaseCmpr_zero_iff_fold_equal (cstr "Song") (cstr "Song A") (by decide) (by decide),
    by decide, by decide, by decide⟩

/-- C15, on an example: the keyword "Song" in the playlist "Song A", "Song B". -/
theorem reads_change_nothing_witness :
    songs demoAB = some [songA, songB] ∧
    ∃ st1 st2, searchSong demoAB (cstr "Song") = some st1 ∧
      displayPlaylist demoAB = some st2 ∧
      st1.heap = demoAB.heap ∧ st1.pl = demoAB.pl ∧ songs st1 = some [songA, songB] ∧
      st2.heap = demoAB.heap ∧ st2.pl = demoAB.pl ∧ songs st2 = some [songA, songB] :=
  ⟨by decide, reads_change_nothing demoAB (cstr "Song") [songA, songB] (by decide)⟩

/-- C17, on an example: the state after `initPlaylist`, two `addSong` calls and the
removal of the last song; the next `addSong` appends after "Song A". -/
theorem tail_is_last_cell_witness :
    Reachable ((removeSong demoAB (cstr "song b")).getD emptyState) ∧
    (∃ l, cells ((removeSong demoAB (cstr "song b")).getD emptyState) = some l ∧
      (((removeSong demoAB (cstr "song b")).getD emptyState).pl.tail = none ↔
        ((removeSong demoAB (cstr "song b")).getD emptyState).pl.head = none) ∧
      ((removeSong demoAB (cstr "song b")).getD emptyState).pl.tail =
        (l.getLast?).map (fun c => c.1) ∧
      (∀ c ∈ l, (c.2.next = none ↔
        ((removeSong demoAB (cstr "song b")).getD emptyState).pl.tail = some c.1)) ∧
      ∀ (title artist : List Nat) (duration : Int), title.length < MAX_STR →
        artist.length < MAX_STR →
        ∃ st1, addSong ((removeSong demoAB (cstr "song b")).getD emptyState) title artist
            duration = some st1 ∧
          songs st1 = some (l.map (fun c => c.2.data) ++ [⟨title, artist, duration⟩])) ∧
    ((removeSong demoAB (cstr "song b")).bind
      (fun s => addSong s songB.title songB.artist songB.duration)).bind songs =
      some [songA, songB] :=
  have hr : Reachable ((removeSong demoAB (cstr "song b")).getD emptyState) :=
    Reachable.remove demoAB _ (cstr "song b")
      (Reachable.add demoA demoAB songB.title songB.artist songB.duration
        (Reachable.add demoInit demoA songA.title songA.artist songA.duration
          (Reachable.init emptyState demoInit (cstr "My Favorites") (by decide)) (by decide))
        (by decide))
      (by decide)
  ⟨hr, tail_is_last_cell _ hr, by decide⟩

end SongManagement
